import Mathlib

/-!
Verification development for the birdwatcher task-executor core.

The definitions below are shallow embeddings, translated from the
TypeScript sources of the repository:

* string normalisation and the three task-signature functions
  (src/functions/task-executor/index.ts, monitoring-demo.ts);
* executable MD5 and SHA-256 (the code calls Node's crypto with hex
  output; we implement the algorithms over byte lists so that concrete
  digests can be evaluated by the kernel);
* a simplified WHATWG URL parser, faithful for well-formed absolute
  http(s) URLs without userinfo or percent-encoding (the only URLs the
  claims quantify over);
* the BrowserExecutor.executePlan step loop, the CacheManager (database
  and in-memory backends), the InteractiveBrowserAgent loop, the
  ChangeDetector, and the handler input-validation / status-code logic.

Browser, database and LLM behaviour is abstracted into oracles (functions
from invocation counters to outcomes); everything else follows the source
line by line.  JavaScript numbers are modelled as rationals.
-/

set_option autoImplicit false
set_option maxRecDepth 100000

namespace Birdwatcher

/-! ## Characters and strings: JS-style helpers -/

/-- Whitespace characters recognised by JS trim and the regex class \s
(restricted to the ASCII range, which covers all inputs in the claims). -/
def isJsWs (c : Char) : Bool :=
  c = ' ' || c = '\t' || c = '\n' || c = '\r' || c = '\x0b' || c = '\x0c'

/-- Word characters of the JS regex class \w : A-Z, a-z, 0-9 and underscore. -/
def isWordChar (c : Char) : Bool :=
  ('A' ≤ c && c ≤ 'Z') || ('a' ≤ c && c ≤ 'z') || ('0' ≤ c && c ≤ '9') || c = '_'

/-- ASCII lower-casing of one character, as JS toLowerCase acts on ASCII. -/
def charToLower (c : Char) : Char :=
  if 'A' ≤ c && c ≤ 'Z' then Char.ofNat (c.toNat + 32) else c

/-- JS String.prototype.toLowerCase (ASCII fragment). -/
def jsToLower (s : String) : String := ⟨s.data.map charToLower⟩

/-- Left trim on a character list. -/
def trimLeft (l : List Char) : List Char := l.dropWhile isJsWs

/-- Right trim on a character list. -/
def trimRight (l : List Char) : List Char := (l.reverse.dropWhile isJsWs).reverse

/-- Both-ends trim on a character list, as JS String.prototype.trim. -/
def trimList (l : List Char) : List Char := trimRight (trimLeft l)

/-- JS String.prototype.trim. -/
def jsTrim (s : String) : String := ⟨trimList s.data⟩

/-- Replacement of every maximal whitespace run by the character rep :
the JS replace of \s+ by a one-character string.  The flag records
whether the previous character was whitespace (run continuation). -/
def replaceWsRuns (rep : Char) : Bool → List Char → List Char
  | _, [] => []
  | inRun, c :: r =>
    if isJsWs c then
      if inRun then replaceWsRuns rep true r
      else rep :: replaceWsRuns rep true r
    else c :: replaceWsRuns rep false r

/-- The JS replace of \s+ by a single space. -/
def collapseWs (l : List Char) : List Char := replaceWsRuns ' ' false l

/-- The JS replace of \s+ by a single hyphen. -/
def hyphenateWs (l : List Char) : List Char := replaceWsRuns '-' false l

/-- Deletion of the characters outside \w and \s :
the JS replace of the class complement by the empty string. -/
def removeNonWord (l : List Char) : List Char :=
  l.filter (fun c => isWordChar c || isJsWs c)

/-! ## Bytes and hashing

The source calls Node's crypto (createHash with md5 / sha256, hex
digests, UTF-8 input).  We implement both algorithms executably. -/

/-- UTF-8 encoding of one Unicode scalar value, as Node encodes string
input to a hash. -/
def utf8EncodeChar (c : Char) : List Nat :=
  let n := c.toNat
  if n < 128 then [n]
  else if n < 2048 then [192 + n / 64, 128 + n % 64]
  else if n < 65536 then [224 + n / 4096, 128 + (n / 64) % 64, 128 + n % 64]
  else [240 + n / 262144, 128 + (n / 4096) % 64, 128 + (n / 64) % 64, 128 + n % 64]

/-- UTF-8 bytes of a string. -/
def strBytes (s : String) : List Nat := s.data.flatMap utf8EncodeChar

/-- Truncation to 32 bits. -/
def m32 (x : Nat) : Nat := x % 4294967296

/-- 32-bit bitwise complement (arguments are kept below 2^32). -/
def not32 (x : Nat) : Nat := m32 x ^^^ 4294967295

/-- 32-bit left rotation. -/
def rotl32 (x n : Nat) : Nat := m32 (x <<< n) ||| (m32 x >>> (32 - n))

/-- 32-bit right rotation. -/
def rotr32 (x n : Nat) : Nat := (m32 x >>> n) ||| m32 (x <<< (32 - n))

/-- Split a byte list into blocks of 64 (structural formulation so the
kernel can evaluate it). -/
def chunks64 (l : List Nat) : List (List Nat) :=
  (List.range ((l.length + 63) / 64)).map (fun i => (l.drop (64 * i)).take 64)

/-- Little-endian 32-bit words from bytes. -/
def wordsLE : List Nat → List Nat
  | b0 :: b1 :: b2 :: b3 :: r => (b0 + 256 * b1 + 65536 * b2 + 16777216 * b3) :: wordsLE r
  | _ => []

/-- Big-endian 32-bit words from bytes. -/
def wordsBE : List Nat → List Nat
  | b0 :: b1 :: b2 :: b3 :: r => (b3 + 256 * b2 + 65536 * b1 + 16777216 * b0) :: wordsBE r
  | _ => []

/-- Little-endian bytes of a 32-bit word. -/
def wordBytesLE (w : Nat) : List Nat :=
  [w % 256, (w / 256) % 256, (w / 65536) % 256, (w / 16777216) % 256]

/-- Big-endian bytes of a 32-bit word. -/
def wordBytesBE (w : Nat) : List Nat :=
  [(w / 16777216) % 256, (w / 65536) % 256, (w / 256) % 256, w % 256]

/-- Little-endian bytes of a 64-bit quantity (the MD5 length field). -/
def lenBytesLE (n : Nat) : List Nat :=
  (List.range 8).map (fun i => (n / 256 ^ i) % 256)

/-- Big-endian bytes of a 64-bit quantity (the SHA-256 length field). -/
def lenBytesBE (n : Nat) : List Nat :=
  ((List.range 8).map (fun i => (n / 256 ^ i) % 256)).reverse

/-- Merkle–Damgård padding shared by MD5 and SHA-256 (the length field
encoding differs and is passed in). -/
def padMsg (msg : List Nat) (lenField : Nat → List Nat) : List Nat :=
  let padLen := (119 - msg.length % 64) % 64 + 1
  msg ++ (128 :: List.replicate (padLen - 1) 0) ++ lenField (8 * msg.length)

/-- MD5 sine-table constants. -/
def md5K : List Nat :=
  [3614090360, 3905402710, 606105819, 3250441966, 4118548399, 1200080426,
   2821735955, 4249261313, 1770035416, 2336552879, 4294925233, 2304563134,
   1804603682, 4254626195, 2792965006, 1236535329, 4129170786, 3225465664,
   643717713, 3921069994, 3593408605, 38016083, 3634488961, 3889429448,
   568446438, 3275163606, 4107603335, 1163531501, 2850285829, 4243563512,
   1735328473, 2368359562, 4294588738, 2272392833, 1839030562, 4259657740,
   2763975236, 1272893353, 4139469664, 3200236656, 681279174, 3936430074,
   3572445317, 76029189, 3654602809, 3873151461, 530742520, 3299628645,
   4096336452, 1126891415, 2878612391, 4237533241, 1700485571, 2399980690,
   4293915773, 2240044497, 1873313359, 4264355552, 2734768916, 1309151649,
   4149444226, 3174756917, 718787259, 3951481745]

/-- MD5 per-round rotation amounts. -/
def md5S : List Nat :=
  [7, 12, 17, 22, 7, 12, 17, 22, 7, 12, 17, 22, 7, 12, 17, 22,
   5, 9, 14, 20, 5, 9, 14, 20, 5, 9, 14, 20, 5, 9, 14, 20,
   4, 11, 16, 23, 4, 11, 16, 23, 4, 11, 16, 23, 4, 11, 16, 23,
   6, 10, 15, 21, 6, 10, 15, 21, 6, 10, 15, 21, 6, 10, 15, 21]

/-- One MD5 round. -/
def md5Round (msgW : List Nat) (st : Nat × Nat × Nat × Nat) (i : Nat) :
    Nat × Nat × Nat × Nat :=
  let (a, b, c, d) := st
  let f :=
    if i < 16 then (b &&& c) ||| (not32 b &&& d)
    else if i < 32 then (d &&& b) ||| (not32 d &&& c)
    else if i < 48 then b ^^^ c ^^^ d
    else c ^^^ (b ||| not32 d)
  let g :=
    if i < 16 then i
    else if i < 32 then (5 * i + 1) % 16
    else if i < 48 then (3 * i + 5) % 16
    else (7 * i) % 16
  let f2 := m32 (f + a + md5K.getD i 0 + msgW.getD g 0)
  (d, m32 (b + rotl32 f2 (md5S.getD i 0)), b, c)

/-- MD5 compression of one 64-byte block. -/
def md5Block (st : Nat × Nat × Nat × Nat) (block : List Nat) :
    Nat × Nat × Nat × Nat :=
  let msgW := wordsLE block
  let (a, b, c, d) := st
  let (a2, b2, c2, d2) := (List.range 64).foldl (md5Round msgW) st
  (m32 (a + a2), m32 (b + b2), m32 (c + c2), m32 (d + d2))

/-- MD5 digest bytes of a byte-list message. -/
def md5Bytes (msg : List Nat) : List Nat :=
  let padded := padMsg msg lenBytesLE
  let (a, b, c, d) :=
    (chunks64 padded).foldl md5Block (1732584193, 4023233417, 2562383102, 271733878)
  wordBytesLE a ++ wordBytesLE b ++ wordBytesLE c ++ wordBytesLE d

/-- Lowercase hex character for a nibble value. -/
def hexNibble (n : Nat) : Char :=
  if n < 10 then Char.ofNat (48 + n) else Char.ofNat (87 + n)

/-- Two lowercase hex characters of a byte value. -/
def byteToHex (b : Nat) : List Char := [hexNibble ((b / 16) % 16), hexNibble (b % 16)]

/-- Lowercase hex string of a byte list. -/
def bytesToHex (bs : List Nat) : String := ⟨bs.flatMap byteToHex⟩

/-- Hex MD5 digest of a string, as createHash md5 update digest hex. -/
def md5Hex (s : String) : String := bytesToHex (md5Bytes (strBytes s))

/-- SHA-256 round constants. -/
def sha256K : List Nat :=
  [1116352408, 1899447441, 3049323471, 3921009573, 961987163, 1508970993,
   2453635748, 2870763221, 3624381080, 310598401, 607225278, 1426881987,
   1925078388, 2162078206, 2614888103, 3248222580, 3835390401, 4022224774,
   264347078, 604807628, 770255983, 1249150122, 1555081692, 1996064986,
   2554220882, 2821834349, 2952996808, 3210313671, 3336571891, 3584528711,
   113926993, 338241895, 666307205, 773529912, 1294757372, 1396182291,
   1695183700, 1986661051, 2177026350, 2456956037, 2730485921, 2820302411,
   3259730800, 3345764771, 3516065817, 3600352804, 4094571909, 275423344,
   430227734, 506948616, 659060556, 883997877, 958139571, 1322822218,
   1537002063, 1747873779, 1955562222, 2024104815, 2227730452, 2361852424,
   2428436474, 2756734187, 3204031479, 3329325298]

/-- SHA-256 message-schedule extension: 48 further words from the first 16. -/
def sha256Schedule (w16 : List Nat) : List Nat :=
  (List.range 48).foldl
    (fun w _ =>
      let n := w.length
      let w15 := w.getD (n - 15) 0
      let w2 := w.getD (n - 2) 0
      let s0 := rotr32 w15 7 ^^^ rotr32 w15 18 ^^^ (w15 >>> 3)
      let s1 := rotr32 w2 17 ^^^ rotr32 w2 19 ^^^ (w2 >>> 10)
      w ++ [m32 (w.getD (n - 16) 0 + s0 + w.getD (n - 7) 0 + s1)])
    w16

/-- SHA-256 working state. -/
structure Sha2St where
  a : Nat
  b : Nat
  c : Nat
  d : Nat
  e : Nat
  f : Nat
  g : Nat
  h : Nat

/-- One SHA-256 round. -/
def sha256Round (w : List Nat) (st : Sha2St) (i : Nat) : Sha2St :=
  let s1 := rotr32 st.e 6 ^^^ rotr32 st.e 11 ^^^ rotr32 st.e 25
  let ch := (st.e &&& st.f) ^^^ (not32 st.e &&& st.g)
  let t1 := m32 (st.h + s1 + ch + sha256K.getD i 0 + w.getD i 0)
  let s0 := rotr32 st.a 2 ^^^ rotr32 st.a 13 ^^^ rotr32 st.a 22
  let maj := (st.a &&& st.b) ^^^ (st.a &&& st.c) ^^^ (st.b &&& st.c)
  let t2 := m32 (s0 + maj)
  ⟨m32 (t1 + t2), st.a, st.b, st.c, m32 (st.d + t1), st.e, st.f, st.g⟩

/-- SHA-256 compression of one 64-byte block. -/
def sha256Block (st : Sha2St) (block : List Nat) : Sha2St :=
  let w := sha256Schedule (wordsBE block)
  let r := (List.range 64).foldl (sha256Round w) st
  ⟨m32 (st.a + r.a), m32 (st.b + r.b), m32 (st.c + r.c), m32 (st.d + r.d),
   m32 (st.e + r.e), m32 (st.f + r.f), m32 (st.g + r.g), m32 (st.h + r.h)⟩

/-- SHA-256 digest bytes of a byte-list message. -/
def sha256Bytes (msg : List Nat) : List Nat :=
  let padded := padMsg msg lenBytesBE
  let r := (chunks64 padded).foldl sha256Block
    ⟨1779033703, 3144134277, 1013904242, 2773480762,
     1359893119, 2600822924, 528734635, 1541459225⟩
  wordBytesBE r.a ++ wordBytesBE r.b ++ wordBytesBE r.c ++ wordBytesBE r.d ++
  wordBytesBE r.e ++ wordBytesBE r.f ++ wordBytesBE r.g ++ wordBytesBE r.h

/-- Hex SHA-256 digest of a string, as createHash sha256 update digest hex. -/
def sha256Hex (s : String) : String := bytesToHex (sha256Bytes (strBytes s))

/-- Validation of the MD5 implementation on the standard test vector. -/
theorem md5Hex_abc : md5Hex "abc" = "900150983cd24fb0d6963f7d28e17f72" := by decide

/-- Validation of the SHA-256 implementation on the standard test vector. -/
theorem sha256Hex_abc :
    sha256Hex "abc" = "ba7816bf8f01cfea414140de5dae2223b00361a396177a9cb410ff61f20015ad" := by
  decide

/-- The sixteen lowercase hex digits. -/
def hexDigits : List Char := "0123456789abcdef".data

theorem hexNibble_mem_of_lt : ∀ n < 16, hexNibble n ∈ hexDigits := by decide

theorem byteToHex_mem {b : Nat} {c : Char} (hc : c ∈ byteToHex b) : c ∈ hexDigits := by
  simp only [byteToHex, List.mem_cons, List.not_mem_nil, or_false] at hc
  rcases hc with h | h <;> subst h <;>
    exact hexNibble_mem_of_lt _ (Nat.mod_lt _ (by omega))

theorem bytesToHex_mem {bs : List Nat} {c : Char} (hc : c ∈ (bytesToHex bs).data) :
    c ∈ hexDigits := by
  simp only [bytesToHex, List.mem_flatMap] at hc
  obtain ⟨b, _, hb⟩ := hc
  exact byteToHex_mem hb

theorem length_flatMap_byteToHex (bs : List Nat) :
    (bs.flatMap byteToHex).length = 2 * bs.length := by
  induction bs with
  | nil => rfl
  | cons b r ih => simp [byteToHex, ih]; ring

theorem md5Bytes_length (msg : List Nat) : (md5Bytes msg).length = 16 := by
  rcases h : (chunks64 (padMsg msg lenBytesLE)).foldl md5Block
      (1732584193, 4023233417, 2562383102, 271733878) with ⟨a, b, c, d⟩
  simp [md5Bytes, h, wordBytesLE]

theorem sha256Bytes_length (msg : List Nat) : (sha256Bytes msg).length = 32 := by
  simp [sha256Bytes, wordBytesBE]

theorem strLength_mk (l : List Char) : (String.mk l).length = l.length := rfl

/-- MD5 hex digests always have 32 characters. -/
theorem md5Hex_length (s : String) : (md5Hex s).length = 32 := by
  simp only [md5Hex, bytesToHex, strLength_mk]
  rw [length_flatMap_byteToHex, md5Bytes_length]

/-- SHA-256 hex digests always have 64 characters. -/
theorem sha256Hex_length (s : String) : (sha256Hex s).length = 64 := by
  simp only [sha256Hex, bytesToHex, strLength_mk]
  rw [length_flatMap_byteToHex, sha256Bytes_length]

/-- Every character of an MD5 hex digest is a lowercase hex digit. -/
theorem md5Hex_mem {s : String} {c : Char} (hc : c ∈ (md5Hex s).data) : c ∈ hexDigits :=
  bytesToHex_mem hc

/-- Every character of a SHA-256 hex digest is a lowercase hex digit. -/
theorem sha256Hex_mem {s : String} {c : Char} (hc : c ∈ (sha256Hex s).data) : c ∈ hexDigits :=
  bytesToHex_mem hc

/-! ## URL parsing

The handler and both signature helpers go through the WHATWG URL
constructor (new URL) to read hostname, protocol and pathname.  We model
the fragment of its behaviour exercised by well-formed absolute http(s)
URLs without userinfo or percent-encoding: the scheme and host are
lower-cased, the path defaults to a single slash, query and fragment are
cut off, and an optional port is split from the host. -/

/-- Parsed URL pieces, named as the corresponding URL accessors. -/
structure UrlParts where
  protocol : String
  hostname : String
  pathname : String
  deriving DecidableEq, Repr

/-- Scan for the first occurrence of the literal separator between the
scheme and the authority. -/
def splitSchemeAux : List Char → List Char → Option (List Char × List Char)
  | _, [] => none
  | acc, c :: r =>
    if c = ':' ∧ r.take 2 = "//".data then some (acc.reverse, r.drop 2)
    else splitSchemeAux (c :: acc) r

/-- Characters that terminate the authority component. -/
def isAuthEnd (c : Char) : Bool := c = '/' || c = '?' || c = '#'

/-- Characters that terminate the path component. -/
def isPathEnd (c : Char) : Bool := c = '?' || c = '#'

/-- Parse an absolute http(s) URL, as new URL does on such inputs;
returns none where the constructor would throw. -/
def parseHttpUrl (s : String) : Option UrlParts :=
  match splitSchemeAux [] s.data with
  | none => none
  | some (schRaw, rest) =>
    let sch := schRaw.map charToLower
    if sch = "http".data ∨ sch = "https".data then
      let auth := rest.takeWhile (fun c => !isAuthEnd c)
      let after := rest.dropWhile (fun c => !isAuthEnd c)
      let host := auth.takeWhile (fun c => c ≠ ':')
      if host.isEmpty || auth.contains '@' then none
      else
        let path :=
          match after with
          | '/' :: _ => after.takeWhile (fun c => !isPathEnd c)
          | _ => ['/']
        some ⟨⟨sch ++ [':']⟩, ⟨host.map charToLower⟩, ⟨path⟩⟩
    else none

/-! ## The three task-signature functions -/

/-- Task signature of the Lambda handler (generateTaskSignature in
index.ts): MD5 of the lower-cased trimmed instruction joined by an
underscore with the URL hostname.  Returns none when new URL throws. -/
def generateTaskSignature (instruction url : String) : Option String :=
  (parseHttpUrl url).map fun u =>
    md5Hex (jsTrim (jsToLower instruction) ++ "_" ++ u.hostname)

/-- Removal of a leading http:// or https:// (the anchored, case-sensitive
regex replace in createTaskSignature of the interactive agent). -/
def ibaStripScheme (l : List Char) : List Char :=
  if l.take 8 = "https://".data then l.drop 8
  else if l.take 7 = "http://".data then l.drop 7
  else l

/-- Replacement of characters outside \w, dot and hyphen by a hyphen. -/
def ibaSanitizeChar (c : Char) : Char :=
  if isWordChar c || c = '.' || c = '-' then c else '-'

/-- Task signature of the InteractiveBrowserAgent (createTaskSignature in
index.ts, duplicated verbatim inside the handler's cache lookup):
normalized-url :: normalized-instruction. -/
def ibaCreateTaskSignature (instruction url : String) : String :=
  let normalizedInstruction : String := ⟨hyphenateWs (trimList (jsToLower instruction).data)⟩
  let normalizedUrl : String := ⟨(ibaStripScheme url.data).map ibaSanitizeChar⟩
  normalizedUrl ++ "::" ++ normalizedInstruction

/-- Instruction normalisation of PlanGenerator.createTaskSignature:
lower-case, collapse whitespace, strip non-word characters, trim. -/
def pgNormalizeInstruction (instruction : String) : String :=
  ⟨trimList (removeNonWord (collapseWs (jsToLower instruction).data))⟩

/-- URL normalisation of PlanGenerator.createTaskSignature: protocol,
host and path via new URL, lower-cased whole URL when parsing fails. -/
def pgNormalizeUrl (url : String) : String :=
  match parseHttpUrl url with
  | some u => u.protocol ++ "//" ++ u.hostname ++ u.pathname
  | none => jsToLower url

/-- Task signature of PlanGenerator (monitoring-demo.ts): SHA-256 of the
normalized instruction and URL joined by a pipe. -/
def pgCreateTaskSignature (instruction url : String) : String :=
  sha256Hex (pgNormalizeInstruction instruction ++ "|" ++ pgNormalizeUrl url)

/-! ## List and trimming lemmas -/

theorem dropWhile_append_all {α : Type} (p : α → Bool) (l₁ l₂ : List α)
    (h : ∀ a ∈ l₁, p a) : (l₁ ++ l₂).dropWhile p = l₂.dropWhile p := by
  induction l₁ with
  | nil => rfl
  | cons a r ih =>
    simp only [List.cons_append, List.dropWhile_cons, h a (by simp), if_true]
    exact ih (fun b hb => h b (by simp [hb]))

theorem takeWhile_append_all {α : Type} (p : α → Bool) (l₁ l₂ : List α)
    (h : ∀ a ∈ l₁, p a) : (l₁ ++ l₂).takeWhile p = l₁ ++ l₂.takeWhile p := by
  induction l₁ with
  | nil => rfl
  | cons a r ih =>
    simp only [List.cons_append, List.takeWhile_cons, h a (by simp), if_true]
    rw [ih (fun b hb => h b (by simp [hb]))]

theorem takeWhile_all {α : Type} (p : α → Bool) (l : List α)
    (h : ∀ a ∈ l, p a) : l.takeWhile p = l := by
  have := takeWhile_append_all p l [] h
  simpa using this

theorem dropWhile_all {α : Type} (p : α → Bool) (l : List α)
    (h : ∀ a ∈ l, p a) : l.dropWhile p = [] := by
  have := dropWhile_append_all p l [] h
  simpa using this

/-- All-whitespace character lists. -/
def AllWs (l : List Char) : Prop := ∀ c ∈ l, isJsWs c = true

theorem trimLeft_pad {w x : List Char} (hw : AllWs w) :
    trimLeft (w ++ x) = trimLeft x :=
  dropWhile_append_all isJsWs w x hw

theorem trimRight_pad {x w : List Char} (hw : AllWs w) :
    trimRight (x ++ w) = trimRight x := by
  unfold trimRight
  rw [List.reverse_append, dropWhile_append_all isJsWs w.reverse x.reverse
    (fun c hc => hw c (List.mem_reverse.mp hc))]

theorem trimList_pad {w₁ x w₂ : List Char} (h₁ : AllWs w₁) (h₂ : AllWs w₂) :
    trimList (w₁ ++ x ++ w₂) = trimList x := by
  unfold trimList
  rw [List.append_assoc, trimLeft_pad h₁]
  clear h₁
  induction x with
  | nil =>
    simp only [List.nil_append, trimLeft, dropWhile_all isJsWs w₂ h₂]
    rfl
  | cons c x ih =>
    cases hc : isJsWs c with
    | true =>
      simp only [List.cons_append, trimLeft, List.dropWhile_cons, hc, if_true] at ih ⊢
      exact ih
    | false =>
      simp only [List.cons_append, trimLeft, List.dropWhile_cons, hc, Bool.false_eq_true,
        if_false]
      rw [← List.cons_append, trimRight_pad h₂]

theorem map_all_id {α : Type} (f : α → α) (l : List α) (h : ∀ a ∈ l, f a = a) :
    l.map f = l := by
  induction l with
  | nil => rfl
  | cons a r ih =>
    simp only [List.map_cons, h a (by simp), List.cons.injEq, true_and]
    exact ih (fun b hb => h b (by simp [hb]))

/-- Decomposition of a list as whitespace padding around its trim. -/
theorem trimList_decomp (l : List Char) :
    ∃ w₁ w₂, AllWs w₁ ∧ AllWs w₂ ∧ l = w₁ ++ trimList l ++ w₂ := by
  refine ⟨l.takeWhile isJsWs, ((trimLeft l).reverse.takeWhile isJsWs).reverse, ?_, ?_, ?_⟩
  · exact fun c hc => List.mem_takeWhile_imp hc
  · exact fun c hc => List.mem_takeWhile_imp (List.mem_reverse.mp hc)
  · have h2 : ∀ m : List Char, m = trimRight m ++ (m.reverse.takeWhile isJsWs).reverse := by
      intro m
      conv_lhs => rw [← List.reverse_reverse m,
        ← List.takeWhile_append_dropWhile (p := isJsWs) (l := m.reverse)]
      rw [List.reverse_append]
      rfl
    conv_lhs => rw [← List.takeWhile_append_dropWhile (p := isJsWs) (l := l)]
    rw [List.append_assoc]
    congr 1
    exact h2 (trimLeft l)

theorem removeNonWord_append (l₁ l₂ : List Char) :
    removeNonWord (l₁ ++ l₂) = removeNonWord l₁ ++ removeNonWord l₂ := by
  simp [removeNonWord]

theorem removeNonWord_ws {w : List Char} (hw : AllWs w) : removeNonWord w = w :=
  List.filter_eq_self.mpr (fun c hc => by simp [hw c hc])

/-- Trim-equal inputs stay trim-equal after deleting non-word characters
(the step that lets PlanGenerator's normalisation absorb padding). -/
theorem trim_removeNonWord_congr {a b : List Char} (h : trimList a = trimList b) :
    trimList (removeNonWord a) = trimList (removeNonWord b) := by
  obtain ⟨w₁, w₂, hw₁, hw₂, ha⟩ := trimList_decomp a
  obtain ⟨v₁, v₂, hv₁, hv₂, hb⟩ := trimList_decomp b
  have hra : trimList (removeNonWord a) = trimList (removeNonWord (trimList a)) := by
    conv_lhs => rw [ha]
    rw [removeNonWord_append, removeNonWord_append, removeNonWord_ws hw₁,
      removeNonWord_ws hw₂, trimList_pad hw₁ hw₂]
  have hrb : trimList (removeNonWord b) = trimList (removeNonWord (trimList b)) := by
    conv_lhs => rw [hb]
    rw [removeNonWord_append, removeNonWord_append, removeNonWord_ws hv₁,
      removeNonWord_ws hv₂, trimList_pad hv₁ hv₂]
  rw [hra, hrb, h]

theorem charToLower_ws {c : Char} (h : isJsWs c = true) : charToLower c = c := by
  simp only [isJsWs, Bool.or_eq_true, decide_eq_true_eq] at h
  rcases h with ((((h | h) | h) | h) | h) | h <;> subst h <;> decide

theorem map_charToLower_ws {w : List Char} (hw : AllWs w) :
    w.map charToLower = w :=
  map_all_id _ _ (fun c hc => charToLower_ws (hw c hc))

theorem isJsWs_charToLower {c : Char} (h : isJsWs c = true) :
    isJsWs (charToLower c) = true := by rw [charToLower_ws h]; exact h

/-! ## URL render and parse -/

/-- Rendering of an absolute URL from scheme, host and path. -/
def renderUrl (sch host path : String) : String := sch ++ "://" ++ host ++ path

theorem strData_append (s t : String) : (s ++ t).data = s.data ++ t.data := rfl

/-- Scheme variants of http and https, up to ASCII case. -/
def SchemeOk (sch : String) : Prop :=
  sch.data.map charToLower = "http".data ∨ sch.data.map charToLower = "https".data

/-- Hosts that do not interfere with the authority scan. -/
def HostOk (host : String) : Prop :=
  host.data ≠ [] ∧ ∀ c ∈ host.data, c ≠ ':' ∧ isAuthEnd c = false ∧ c ≠ '@'

/-- Paths that start with a slash and carry no query or fragment. -/
def PathOk (path : String) : Prop :=
  (∃ r, path.data = '/' :: r) ∧ ∀ c ∈ path.data, isPathEnd c = false

theorem schemeOk_no_colon {sch : String} (h : SchemeOk sch) :
    ∀ c ∈ sch.data, c ≠ ':' := by
  intro c hc heq
  subst heq
  rcases h with h | h <;>
  · have : charToLower ':' ∈ sch.data.map charToLower := List.mem_map_of_mem _ hc
    rw [h] at this
    revert this
    decide

theorem splitSchemeAux_through {sch : List Char} (h : ∀ c ∈ sch, c ≠ ':') :
    ∀ acc rest, splitSchemeAux acc (sch ++ ':' :: '/' :: '/' :: rest) =
      some (acc.reverse ++ sch, rest) := by
  induction sch with
  | nil =>
    intro acc rest
    simp [splitSchemeAux]
  | cons c r ih =>
    intro acc rest
    have hc : c ≠ ':' := h c (by simp)
    rw [List.cons_append]
    show splitSchemeAux acc (c :: (r ++ ':' :: '/' :: '/' :: rest)) = _
    rw [splitSchemeAux, if_neg (by simp [hc]),
      ih (fun b hb => h b (by simp [hb])) (c :: acc) rest]
    simp

/-- On a well-formed rendered http(s) URL the parser returns the
lower-cased scheme and host and the given path. -/
theorem parseHttpUrl_render {sch host path : String}
    (hs : SchemeOk sch) (hh : HostOk host) (hp : PathOk path) :
    parseHttpUrl (renderUrl sch host path) =
      some ⟨⟨sch.data.map charToLower ++ [':']⟩, ⟨host.data.map charToLower⟩, path⟩ := by
  obtain ⟨hne, hhost⟩ := hh
  obtain ⟨⟨ptail, hpath⟩, hpend⟩ := hp
  obtain ⟨pdata⟩ := path
  have hpd : pdata = '/' :: ptail := hpath
  subst hpd
  have hdata : (renderUrl sch host ⟨'/' :: ptail⟩).data =
      sch.data ++ ':' :: '/' :: '/' :: (host.data ++ '/' :: ptail) := by
    show (sch.data ++ "://".data) ++ host.data ++ ('/' :: ptail) = _
    simp
  have hnotEnd : ∀ c ∈ host.data, (!isAuthEnd c) = true := by
    intro c hc
    simp [(hhost c hc).2.1]
  have htake : (host.data ++ '/' :: ptail).takeWhile (fun c => !isAuthEnd c) = host.data := by
    rw [takeWhile_append_all _ _ _ hnotEnd]
    simp [List.takeWhile_cons, isAuthEnd]
  have hdrop : (host.data ++ '/' :: ptail).dropWhile (fun c => !isAuthEnd c) = '/' :: ptail := by
    rw [dropWhile_append_all _ _ _ hnotEnd]
    simp [List.dropWhile_cons, isAuthEnd]
  have htakeHost : host.data.takeWhile (fun c => decide (c ≠ ':')) = host.data :=
    takeWhile_all _ _ (fun c hc => by simp [(hhost c hc).1])
  have hempty : host.data.isEmpty = false := by
    cases h : host.data with
    | nil => exact absurd h hne
    | cons a r => rfl
  have hat : host.data.contains '@' = false := by
    by_contra hcon
    have hmem : '@' ∈ host.data := by
      have := Bool.not_eq_false _ |>.mp hcon
      simpa [List.contains] using this
    exact (hhost '@' hmem).2.2 rfl
  have hptake : ('/' :: ptail).takeWhile (fun c => !isPathEnd c) = '/' :: ptail :=
    takeWhile_all _ _ (fun c hc => by simp [hpend c hc])
  unfold parseHttpUrl
  rw [hdata, splitSchemeAux_through (schemeOk_no_colon hs) [] (host.data ++ '/' :: ptail)]
  dsimp only []
  simp only [List.reverse_nil, List.nil_append]
  have hs2 : List.map charToLower sch.data = ['h', 't', 't', 'p'] ∨
      List.map charToLower sch.data = ['h', 't', 't', 'p', 's'] := hs
  rw [if_pos hs2, htake, hdrop, htakeHost]
  simp only [hempty, hat, Bool.or_self, Bool.false_eq_true, if_false, hptake]

/-! ## BrowserExecutor.executePlan

The browser is abstracted into an oracle execOk : each executeStep
invocation is numbered, and the oracle says whether that invocation
returns normally (a condition-skip also returns normally) or throws.
Page-context criterion evaluation is the oracle evalCrit; none models an
evaluation error.  The fields stepAttempts and retryWaitsMs record the
interaction trace (number of executeStep calls, waits before retries in
milliseconds); they are not part of the source ExecutionResult. -/

/-- Step fields that drive the executePlan control flow. -/
structure ExecutionStep where
  id : String
  stepType : String
  description : String
  optional : Bool
  retries : Option Nat
  deriving DecidableEq, Repr

/-- Effective retry budget: step.retries or 3, with JS falsiness making a
stored 0 fall back to 3. -/
def effRetries (s : ExecutionStep) : Nat :=
  match s.retries with
  | none => 3
  | some 0 => 3
  | some n => n

/-- Success and failure criteria of a plan. -/
structure PlanValidation where
  successCriteria : List String
  failureCriteria : List String
  deriving DecidableEq, Repr

/-- Plan fields used by the executor and the cache. -/
structure ExecutionPlan where
  id : String
  taskSignature : String
  instruction : String
  url : String
  steps : List ExecutionStep
  deriving DecidableEq, Repr

/-- Validation of the plan criteria: every success criterion must
evaluate truthy (an evaluation error fails it), and no failure criterion
may evaluate truthy (an evaluation error is ignored). -/
def validateExecution (v : PlanValidation) (evalCrit : String → Option Bool) : Bool :=
  v.successCriteria.all (fun c => (evalCrit c).getD false) &&
  v.failureCriteria.all (fun c => !(evalCrit c).getD false)

/-- Result statuses of an execution. -/
inductive ExecStatus where
  | success
  | failed
  | timeout
  | error
  deriving DecidableEq, Repr

/-- The error object of an ExecutionResult. -/
structure ExecError where
  message : String
  step : Option String
  deriving DecidableEq, Repr

/-- The metrics bag of an ExecutionResult. -/
structure ExecMetrics where
  stepsCompleted : Nat
  stepsTotal : Nat
  retryCount : Nat
  deriving DecidableEq, Repr

/-- Modelled ExecutionResult plus the interaction trace. -/
structure ExecResult where
  planId : String
  status : ExecStatus
  error : Option ExecError
  metrics : ExecMetrics
  stepAttempts : Nat
  retryWaitsMs : List Nat
  deriving DecidableEq, Repr

/-- Outcome of the step loop: normal completion or a thrown
BrowserExecutionError carrying the failing step id. -/
inductive LoopOut where
  | done (attempts stepsCompleted retryCount : Nat) (waits : List Nat)
  | thrown (stepId : String) (message : String)
      (attempts stepsCompleted retryCount : Nat) (waits : List Nat)
  deriving DecidableEq, Repr

/-- The step loop of executePlan.  On a failed mandatory step with
retryCount below the budget the code waits 1000 × (retryCount + 1) ms and
retries exactly once; a successful retry resets retryCount to 0, a failed
retry throws.  A failed optional step is skipped without incrementing
stepsCompleted. -/
def runSteps (execOk : Nat → Bool) :
    List ExecutionStep → Nat → Nat → Nat → List Nat → LoopOut
  | [], att, comp, rc, ws => .done att comp rc ws
  | s :: rest, att, comp, rc, ws =>
    if execOk att then runSteps execOk rest (att + 1) (comp + 1) rc ws
    else if s.optional then runSteps execOk rest (att + 1) comp rc ws
    else if rc < effRetries s then
      if execOk (att + 1) then
        runSteps execOk rest (att + 2) (comp + 1) 0 (ws ++ [1000 * (rc + 1)])
      else
        .thrown s.id
          ("Step failed after " ++ toString (rc + 1) ++ " retries: " ++ s.description)
          (att + 2) comp (rc + 1) (ws ++ [1000 * (rc + 1)])
    else
      .thrown s.id
        ("Step failed after " ++ toString rc ++ " retries: " ++ s.description)
        (att + 1) comp rc ws

/-- BrowserExecutor.executePlan: browser initialisation, the step loop,
and validation of the completed run.  Validation failure yields status
failed; a thrown step error yields status error with the step id. -/
def executePlan (plan : ExecutionPlan) (validation : PlanValidation)
    (browserInitOk : Bool) (execOk : Nat → Bool) (evalCrit : String → Option Bool) :
    ExecResult :=
  if !browserInitOk then
    { planId := plan.id, status := .error
      error := some ⟨"Failed to initialize browser", none⟩
      metrics := ⟨0, plan.steps.length, 0⟩, stepAttempts := 0, retryWaitsMs := [] }
  else
    match runSteps execOk plan.steps 0 0 0 [] with
    | .thrown sid msg att comp rc ws =>
      { planId := plan.id, status := .error
        error := some ⟨msg, some sid⟩
        metrics := ⟨comp, plan.steps.length, rc⟩, stepAttempts := att, retryWaitsMs := ws }
    | .done att comp rc ws =>
      let ok := validateExecution validation evalCrit
      { planId := plan.id, status := if ok then .success else .failed
        error := if ok then none else some ⟨"Execution validation failed", some "validation"⟩
        metrics := ⟨comp, plan.steps.length, rc⟩, stepAttempts := att, retryWaitsMs := ws }

/-! ## CacheManager: in-memory fallback and database backend -/

/-- The LocalMemoryCache state: an insertion-ordered key to plan map.
The entries carry no hit counter and no expiry. -/
abbrev LocalCache : Type := List (String × ExecutionPlan)

/-- Map.set: update in place or append. -/
def localSet (m : LocalCache) (k : String) (p : ExecutionPlan) : LocalCache :=
  if m.any (fun e => e.1 = k) then
    m.map (fun e => if e.1 = k then (k, p) else e)
  else m ++ [(k, p)]

/-- Map.get: pure lookup.  The state is returned alongside to make
explicit that a hit performs no write. -/
def localGet (m : LocalCache) (k : String) : Option ExecutionPlan × LocalCache :=
  ((m.find? (fun e => e.1 = k)).map (fun e => e.2), m)

/-- Top-plans entry of the cache statistics. -/
structure TopPlan where
  planId : String
  hitCount : Nat
  lastUsed : Int
  deriving DecidableEq, Repr

/-- Cache statistics bag. -/
structure CacheStats where
  totalEntries : Nat
  expiredEntries : Nat
  hitRate : ℚ
  topPlans : List TopPlan
  deriving DecidableEq, Repr

/-- LocalMemoryCache.getStats: mocked values, no per-entry hit counts. -/
def localGetStats (m : LocalCache) : CacheStats :=
  { totalEntries := m.length, expiredEntries := 0, hitRate := 17 / 20, topPlans := [] }

/-- Row of the execution_plans table. -/
structure PlanRow where
  id : String
  taskSignature : String
  plan : ExecutionPlan
  version : Nat
  isActive : Bool
  deriving DecidableEq, Repr

/-- Row of the plan_cache table. -/
structure CacheRow where
  cacheKey : String
  planId : String
  hitCount : Nat
  lastUsed : Int
  expiresAt : Int
  deriving DecidableEq, Repr

/-- The database state seen by the CacheManager. -/
structure Db where
  executionPlans : List PlanRow
  planCache : List CacheRow
  deriving DecidableEq, Repr

/-- CacheManager.generateCacheKey. -/
def generateCacheKey (taskSignature : String) : String :=
  sha256Hex ("cache_" ++ taskSignature)

/-- Default TTL: 7 days in milliseconds. -/
def defaultTTL : Int := 604800000

/-- CacheManager.getCachedPlan on the database backend: select the cache
row joined with its plan row where the key matches and the expiry lies in
the future; on a hit increment hitCount and touch lastUsed. -/
def getCachedPlan (db : Db) (taskSignature : String) (now : Int) :
    Option ExecutionPlan × Db :=
  let k := generateCacheKey taskSignature
  match db.planCache.find? (fun r => r.cacheKey = k && now < r.expiresAt) with
  | none => (none, db)
  | some crow =>
    match db.executionPlans.find? (fun p => p.id = crow.planId) with
    | none => (none, db)
    | some prow =>
      let cache2 := db.planCache.map (fun r =>
        if r.cacheKey = k then { r with hitCount := r.hitCount + 1, lastUsed := now } else r)
      (some prow.plan, { db with planCache := cache2 })

/-- CacheManager.cachePlan on the database backend: upsert the plan row
by task signature (replacing the plan JSON and bumping version on
conflict), re-select the effective plan id, then upsert the cache row by
cache key (a conflict keeps the existing hitCount).  none models the
throw when the re-select finds nothing. -/
def cachePlan (db : Db) (p : ExecutionPlan) (ttl : Option Int) (now : Int) :
    Option (String × Db) :=
  let k := generateCacheKey p.taskSignature
  let expiresAt := now + ttl.getD defaultTTL
  let plans2 :=
    if db.executionPlans.any (fun r => r.taskSignature = p.taskSignature) then
      db.executionPlans.map (fun r =>
        if r.taskSignature = p.taskSignature then
          { r with plan := p, version := r.version + 1 }
        else r)
    else db.executionPlans ++ [⟨p.id, p.taskSignature, p, 1, true⟩]
  match (plans2.find? (fun r => r.taskSignature = p.taskSignature)).map PlanRow.id with
  | none => none
  | some actualPlanId =>
    let cache2 :=
      if db.planCache.any (fun r => r.cacheKey = k) then
        db.planCache.map (fun r =>
          if r.cacheKey = k then
            { r with planId := actualPlanId, expiresAt := expiresAt, lastUsed := now }
          else r)
      else db.planCache ++ [⟨k, actualPlanId, 0, now, expiresAt⟩]
    some (actualPlanId, ⟨plans2, cache2⟩)

/-- Hit count recorded for a task signature (0 when no row exists). -/
def hitCountAt (db : Db) (taskSignature : String) : Nat :=
  ((db.planCache.find? (fun r => r.cacheKey = generateCacheKey taskSignature)).map
    CacheRow.hitCount).getD 0

/-- Well-formedness enforced by the schema: unique plan ids, unique task
signatures, unique cache keys. -/
def DbWf (db : Db) : Prop :=
  (db.executionPlans.map PlanRow.id).Nodup ∧
  (db.executionPlans.map PlanRow.taskSignature).Nodup ∧
  (db.planCache.map CacheRow.cacheKey).Nodup

/-- Freshness of a plan id: no row under a different signature already
uses it (schema uniqueness of the id column after an insert). -/
def FreshId (db : Db) (p : ExecutionPlan) : Prop :=
  ∀ r ∈ db.executionPlans, r.taskSignature ≠ p.taskSignature → r.id ≠ p.id

/-! ## InteractiveBrowserAgent

The loop of executeInteractively with the LLM, the browser action and
unexpected exceptions abstracted into per-iteration oracles.  A none from
the llm oracle covers both a transport error and a structurally invalid
response: the source then substitutes the wait(1000) fallback with
progress score 0.  Scores are modelled as rationals. -/

/-- A parsed LLM decision: the action type, the progress score and the
completion flag (the fields the loop control reads). -/
structure LLMResp where
  actionType : String
  score : ℚ
  isComplete : Bool
  deriving DecidableEq, Repr

/-- The fallback decision substituted on an LLM failure. -/
def fallbackResp : LLMResp := ⟨"wait", 0, false⟩

/-- One recorded InteractiveStep (control-flow fields). -/
structure IStep where
  stepNumber : Nat
  actionType : String
  execSuccess : Bool
  progressScore : ℚ
  isComplete : Bool
  deriving DecidableEq, Repr

/-- Oracles for one interactive run, indexed by step number. -/
structure AgentEnv where
  llm : Nat → Option LLMResp
  execOk : Nat → Bool
  crash : Nat → Bool

/-- Agent configuration (source defaults: 10, 0.1, 3). -/
structure AgentConfig where
  maxSteps : Nat
  progressThreshold : ℚ
  stagnationLimit : Nat

/-- The configuration the handler passes to the agent. -/
def defaultAgentConfig : AgentConfig := ⟨10, 1 / 10, 3⟩

/-- InteractiveBrowserAgent.detectStagnation: fewer scores than the
stagnation limit never stagnate; otherwise the spread of the last
stagnationLimit scores is compared with the threshold.  With limit 0 the
JS slice(-0) yields the whole array, and the spread of an empty slice is
NaN, which compares false. -/
def detectStagnation (cfg : AgentConfig) (progressScores : List ℚ) : Bool :=
  if progressScores.length < cfg.stagnationLimit then false
  else
    let recentScores :=
      if cfg.stagnationLimit = 0 then progressScores
      else progressScores.drop (progressScores.length - cfg.stagnationLimit)
    match recentScores with
    | [] => false
    | h :: t => (t.foldl max h) - (t.foldl min h) < cfg.progressThreshold

/-- Loop outcome: normal exit (with the completion flag and an optional
stagnation escalation), or an exception caught by the outer handler. -/
inductive AgentLoopOut where
  | finished (steps : List IStep) (isComplete : Bool) (stagnationReason : Option String)
  | crashed (steps : List IStep)
  deriving DecidableEq, Repr

/-- The interactive loop: capture state, get the LLM decision (fallback
on failure), execute the action, record the step, stop on completion or
stagnation.  The action outcome does not influence the control flow. -/
def agentLoop (env : AgentEnv) (cfg : AgentConfig) :
    Nat → Nat → List IStep → AgentLoopOut
  | 0, _, steps => .finished steps false none
  | r + 1, sn, steps =>
    if env.crash sn then .crashed steps
    else
      let resp := (env.llm sn).getD fallbackResp
      let steps2 := steps ++ [⟨sn, resp.actionType, env.execOk sn, resp.score, resp.isComplete⟩]
      if resp.isComplete then .finished steps2 true none
      else if detectStagnation cfg (steps2.map IStep.progressScore) then
        .finished steps2 false (some "Task stagnation detected")
      else agentLoop env cfg r (sn + 1) steps2

/-- The metadata bag of an interactive result. -/
structure AgentMetadata where
  maxStepsReached : Bool
  stagnationDetected : Bool
  averageProgressScore : ℚ
  deriving DecidableEq, Repr

/-- The interactive execution result (control-flow fields). -/
structure AgentResult where
  success : Bool
  steps : List IStep
  escalatedToHuman : Bool
  escalationReason : Option String
  metadata : AgentMetadata
  deriving DecidableEq, Repr

/-- InteractiveBrowserAgent.executeInteractively.  The local variable
stagnationCount is initialised to zero and never incremented anywhere in
the source; metadata.stagnationDetected is computed as
stagnationCount > 0 on the normal path and hard-coded false on the
exception path. -/
def executeInteractively (env : AgentEnv) (cfg : AgentConfig) : AgentResult :=
  let stagnationCount : Nat := 0
  match agentLoop env cfg cfg.maxSteps 1 [] with
  | .crashed steps =>
    { success := false, steps, escalatedToHuman := true
      escalationReason := some "Unexpected error"
      metadata := ⟨false, false, 0⟩ }
  | .finished steps isComplete stagReason =>
    let maxStepsReached := decide (cfg.maxSteps ≤ steps.length) && !isComplete
    let escalated := stagReason.isSome || maxStepsReached
    let reason :=
      if stagReason.isSome then stagReason
      else if maxStepsReached then some "Maximum steps reached without completing the task"
      else none
    let scores := steps.map IStep.progressScore
    { success := isComplete, steps
      escalatedToHuman := escalated, escalationReason := reason
      metadata :=
        ⟨maxStepsReached, decide (0 < stagnationCount),
         if scores.length = 0 then 0 else scores.sum / (scores.length : ℚ)⟩ }

/-! ## ChangeDetector

Extracted data is modelled as JSON objects (association lists with the
JS insertion order).  The recursive diff is written with an explicit
fuel bounded by sizeOf so that the kernel can evaluate it; the fuel
never runs out because each recursion step descends into strictly
smaller values. -/

/-- JSON values.  Objects are encoded as a chain of objCons cells ending
in objNil (a plain inductive keeps decidable equality and sizeOf
executable); the cells carry the JS insertion order. -/
inductive JValue where
  | str (s : String)
  | num (q : ℚ)
  | bool (b : Bool)
  | null
  | objNil
  | objCons (key : String) (value : JValue) (rest : JValue)
  deriving DecidableEq, Repr

/-- Build an object value from an association list. -/
def jobj : List (String × JValue) → JValue
  | [] => .objNil
  | (k, v) :: r => .objCons k v (jobj r)

/-- The typeof object test minus the null exclusion. -/
def isObj : JValue → Bool
  | .objNil => true
  | .objCons _ _ _ => true
  | _ => false

/-- Property lookup on an object (object keys are unique in JS; the
first match is taken). -/
def jlookup : JValue → String → Option JValue
  | .objCons k v r, key => if k = key then some v else jlookup r key
  | _, _ => none

/-- The keys of an object, in insertion order. -/
def keysOf : JValue → List String
  | .objCons k _ r => k :: keysOf r
  | _ => []

/-- JS truthiness of a possibly-absent value. -/
def jsTruthy : Option JValue → Bool
  | none => false
  | some (.str s) => s ≠ ""
  | some (.num q) => q ≠ 0
  | some (.bool b) => b
  | some .null => false
  | some .objNil => true
  | some (.objCons _ _ _) => true

/-- The JS strict greater-than on the value pairs the detector compares:
lexicographic on strings (character lists, matching the UTF-16 code-unit
order on the data at hand), numeric on numbers.  Mixed-type pairs would
go through JS coercion; no theorem below depends on them and they are
mapped to false. -/
def jsGt : JValue → JValue → Bool
  | .str a, .str b => decide (b.data < a.data)
  | .num a, .num b => decide (b < a)
  | _, _ => false

/-- Set-insertion key union: first-occurrence order over the keys of
both objects, as new Set of the concatenated key arrays iterates. -/
def keysUnion (o1 o2 : JValue) : List String :=
  (keysOf o1 ++ keysOf o2).foldl
    (fun acc k => if acc.contains k then acc else acc ++ [k]) []

/-- Dotted field path. -/
def dotPath (pre k : String) : String := if pre = "" then k else pre ++ "." ++ k

/-- ChangeDetector.compareObjects: nested objects recurse, any other
differing pair records the dotted path.  Scalar comparison is structural
equality, which agrees with the JS strict inequality on the primitive
values modelled here; the both-object case never reaches it.  The fuel
argument only makes the recursion structural; changedFieldsOf passes
enough for it never to run out. -/
def compareObjects : Nat → JValue → JValue → String → List String
  | 0, _, _, _ => []
  | fuel + 1, o1, o2, pre =>
    (keysUnion o1 o2).flatMap (fun k =>
      match jlookup o1 k, jlookup o2 k with
      | some a, some b =>
        if isObj a && isObj b then compareObjects fuel a b (dotPath pre k)
        else if a = b then [] else [dotPath pre k]
      | v1, v2 => if v1 = v2 then [] else [dotPath pre k])

/-- Structural size of a JSON value (fuel bound for the diff). -/
def jsize : JValue → Nat
  | .objCons _ v r => 1 + jsize v + jsize r
  | _ => 1

/-- The changed fields of two objects, with adequate fuel. -/
def changedFieldsOf (prev curr : JValue) : List String :=
  compareObjects (jsize prev + jsize curr + 1) prev curr ""

/-- The result record of ChangeDetector.hasChanged. -/
structure ChangeResult where
  hasChanged : Bool
  changedFields : List String
  isRestock : Bool
  deriving DecidableEq, Repr

/-- ChangeDetector.hasChanged: deep diff, then the restock test:
roastingDate among the changed fields, both roastingDate values truthy,
and the current one strictly greater. -/
def hasChanged (previousData currentData : JValue) : ChangeResult :=
  let changedFields := changedFieldsOf previousData currentData
  let isRestock :=
    changedFields.contains "roastingDate" &&
    jsTruthy (jlookup previousData "roastingDate") &&
    jsTruthy (jlookup currentData "roastingDate") &&
    (match jlookup currentData "roastingDate", jlookup previousData "roastingDate" with
     | some vc, some vp => jsGt vc vp
     | _, _ => false)
  ⟨decide (0 < changedFields.length), changedFields, isRestock⟩

/-! ## Handler input validation and status codes

TaskInputSchema (types.ts) validates instruction and url and parses the
options object with exactly the keys forceNewPlan, timeout, screenshot,
viewport, userAgent and headers; zod strips unknown keys, so planOnly,
executionOnly, planId and executionMode never survive parsing even
though the TaskInput interface declares them and the handler reads
them.  The stripped fields are modelled as Option values that the parser
always sets to none. -/

/-- The option bag the handler reads after validation.  viewport,
userAgent and headers are not modelled (no claim reads them). -/
structure ParsedOptions where
  forceNewPlan : Bool
  timeout : ℚ
  screenshot : Bool
  planOnly : Option Bool
  executionOnly : Option Bool
  planId : Option String
  executionMode : Option String
  deriving DecidableEq, Repr

/-- A validated TaskInput. -/
structure ParsedTaskInput where
  instruction : String
  url : String
  taskId : Option String
  options : Option ParsedOptions
  deriving DecidableEq, Repr

/-- TaskInputSchema.parse on the options object: typed known keys with
their defaults; every other key (planOnly, executionOnly, planId,
executionMode included) is stripped. -/
def parseOptions (o : JValue) : Option ParsedOptions :=
  match jlookup o "forceNewPlan", jlookup o "timeout", jlookup o "screenshot" with
  | fnp, tmo, scr =>
    match fnp.getD (.bool false), tmo.getD (.num 60000), scr.getD (.bool true) with
    | .bool fnpB, .num tmoQ, .bool scrB =>
      some ⟨fnpB, tmoQ, scrB, none, none, none, none⟩
    | _, _, _ => none

/-- TaskInputSchema.parse on the whole event. -/
def parseTaskInput (event : JValue) : Option ParsedTaskInput :=
  match jlookup event "instruction", jlookup event "url" with
  | some (.str ins), some (.str url) =>
    if 1 ≤ ins.length ∧ (parseHttpUrl url).isSome then
      let taskId := match jlookup event "taskId" with
        | some (.str t) => some t
        | _ => none
      match jlookup event "options" with
      | none => some ⟨ins, url, taskId, none⟩
      | some o =>
        if isObj o then (parseOptions o).map (fun po => ⟨ins, url, taskId, some po⟩)
        else none
    else none
  | _, _ => none

/-- The first handler branch taken after validation, following the if
cascade of the handler (cached-plan replay, interactive loop, plan-only,
execution-only, traditional plan mode). -/
inductive HandlerBranch where
  | invalidOptions
  | cachedTraditional
  | interactive
  | planOnlyMode
  | executionOnlyMode
  | normalPlanExecute
  deriving DecidableEq, Repr

/-- Mode routing of the handler. -/
def handlerRoute (ti : ParsedTaskInput) (cachedPlanFound : Bool) : HandlerBranch :=
  let planOnly := (ti.options.bind ParsedOptions.planOnly).getD false
  let executionOnly := (ti.options.bind ParsedOptions.executionOnly).getD false
  let executionMode := (ti.options.bind ParsedOptions.executionMode).getD "interactive"
  if planOnly && executionOnly then .invalidOptions
  else if cachedPlanFound && (executionMode = "interactive" || executionMode = "auto") then
    .cachedTraditional
  else if executionMode = "interactive" || executionMode = "auto" then .interactive
  else if planOnly then .planOnlyMode
  else if executionOnly then .executionOnlyMode
  else .normalPlanExecute

/-- The error kinds thrown by the handler. -/
inductive HandlerError where
  | taskExecution (message code : String)
  | planGeneration (message : String)
  | browserExecution (message : String)
  | other (message : String)
  deriving DecidableEq, Repr

/-- getErrorStatusCode of the handler: the switch over TaskExecutionError
codes (with a dead TASK_NOT_FOUND arm), 422 for plan generation, 500
otherwise. -/
def getErrorStatusCode : HandlerError → Nat
  | .taskExecution _ code =>
    if code = "VALIDATION_ERROR" ∨ code = "INVALID_INPUT" then 400
    else if code = "TASK_NOT_FOUND" then 404
    else if code = "TIMEOUT" then 408
    else 500
  | .planGeneration _ => 422
  | .browserExecution _ => 500
  | .other _ => 500

/-- The execution-only branch of the handler: load the plan by id when a
planId is given (PLAN_NOT_FOUND when absent), otherwise look up the
cached plan by task signature (NO_CACHED_PLAN when absent). -/
def executionOnlyLookup (planId : Option String)
    (byId : String → Option ExecutionPlan) (bySig : Option ExecutionPlan) :
    Except HandlerError ExecutionPlan :=
  match planId with
  | some pid =>
    match byId pid with
    | some p => .ok p
    | none => .error (.taskExecution ("Plan not found: " ++ pid) "PLAN_NOT_FOUND")
  | none =>
    match bySig with
    | some p => .ok p
    | none =>
      .error (.taskExecution
        "No cached plan found for this task. Use planOnly mode first to generate a plan."
        "NO_CACHED_PLAN")

/-! ## Claim C5: stagnation detection -/

/-- Modelled from the spec: stagnation fires when there are at least
stagnationLimit scores and the last stagnationLimit of them span less
than progressThreshold.  Stated with the library list extrema to compare
against the implementation. -/
def stagnationSpec (cfg : AgentConfig) (scores : List ℚ) : Prop :=
  cfg.stagnationLimit ≤ scores.length ∧
  ∃ mx mn,
    (scores.drop (scores.length - cfg.stagnationLimit)).max? = some mx ∧
    (scores.drop (scores.length - cfg.stagnationLimit)).min? = some mn ∧
    mx - mn < cfg.progressThreshold

/-- C5: for a positive stagnation limit, detectStagnation fires exactly
when the sequence holds at least stagnationLimit scores whose last
stagnationLimit entries have maximum minus minimum strictly below the
progress threshold. -/
theorem C5_stagnation_iff (cfg : AgentConfig) (scores : List ℚ)
    (hpos : 0 < cfg.stagnationLimit) :
    detectStagnation cfg scores = true ↔ stagnationSpec cfg scores := by
  unfold detectStagnation stagnationSpec
  by_cases hlen : scores.length < cfg.stagnationLimit
  · rw [if_pos hlen]
    constructor
    · intro h
      exact absurd h (by simp)
    · rintro ⟨hle, -⟩
      omega
  · rw [if_neg hlen, if_neg (by omega : ¬cfg.stagnationLimit = 0)]
    cases hr : scores.drop (scores.length - cfg.stagnationLimit) with
    | nil =>
      exfalso
      have := congrArg List.length hr
      simp only [List.length_drop, List.length_nil] at this
      omega
    | cons h t =>
      dsimp only []
      constructor
      · intro hd
        refine ⟨by omega, t.foldl max h, t.foldl min h, rfl, rfl, ?_⟩
        simpa using hd
      · rintro ⟨-, mx, mn, hmx, hmn, hlt⟩
        have hmx2 : mx = t.foldl max h := by
          simpa [List.max?] using hmx.symm
        have hmn2 : mn = t.foldl min h := by
          simpa [List.min?] using hmn.symm
        subst hmx2 hmn2
        simpa using hlt

/-- Witness for C5 at the default configuration and three equal scores. -/
theorem C5_stagnation_iff_witness :
    0 < defaultAgentConfig.stagnationLimit ∧
    (detectStagnation defaultAgentConfig [1 / 2, 1 / 2, 1 / 2] = true ↔
      stagnationSpec defaultAgentConfig [1 / 2, 1 / 2, 1 / 2]) :=
  ⟨by decide, C5_stagnation_iff defaultAgentConfig [1 / 2, 1 / 2, 1 / 2] (by decide)⟩

/-! ## Claim C10: the stagnationDetected flag -/

/-- C10: in every result of executeInteractively the metadata flag
stagnationDetected is false, for every configuration and every behaviour
of the LLM, the browser and the exception oracle, because the counter
behind it is initialised to zero and never incremented. -/
theorem C10_stagnationDetected_false (env : AgentEnv) (cfg : AgentConfig) :
    (executeInteractively env cfg).metadata.stagnationDetected = false := by
  unfold executeInteractively
  cases agentLoop env cfg cfg.maxSteps 1 [] <;> rfl

/-! ## Claim C7: ChangeDetector restock rule -/

/-- The previous coffee sample of the end-to-end scenario. -/
def coffeePrev : JValue :=
  jobj [("roastingDate", .str "2025-07-02"), ("price", .num 165), ("inStock", .bool true)]

/-- The current coffee sample of the end-to-end scenario. -/
def coffeeCurr : JValue :=
  jobj [("roastingDate", .str "2025-07-10"), ("price", .num 170), ("inStock", .bool true)]

/-- C7 counterexample: with a previous roastingDate that is the empty
string, the field is among the changed fields and the current date is
lexicographically strictly greater, yet isRestock is false (the source
also requires both values to be truthy). -/
theorem C7_counterexample :
    (hasChanged (jobj [("roastingDate", .str "")])
        (jobj [("roastingDate", .str "2025-01-01")])).changedFields = ["roastingDate"] ∧
    ("".data < "2025-01-01".data) ∧
    (hasChanged (jobj [("roastingDate", .str "")])
        (jobj [("roastingDate", .str "2025-01-01")])).isRestock = false := by
  refine ⟨by decide, by decide, by decide⟩

/-- C7 amended: when both objects carry string roastingDate values,
isRestock holds exactly when roastingDate is among the changed fields,
both values are nonempty, and the current one is lexicographically
strictly greater; and on the concrete coffee samples the detector
returns changed, the fields roastingDate and price, and a restock. -/
theorem C7_restock_amended :
    (∀ (prev curr : JValue) (dp dc : String),
      jlookup prev "roastingDate" = some (.str dp) →
      jlookup curr "roastingDate" = some (.str dc) →
      ((hasChanged prev curr).isRestock = true ↔
        ("roastingDate" ∈ (hasChanged prev curr).changedFields ∧
          dp ≠ "" ∧ dc ≠ "" ∧ dp.data < dc.data))) ∧
    hasChanged coffeePrev coffeeCurr =
      ⟨true, ["roastingDate", "price"], true⟩ := by
  constructor
  · intro prev curr dp dc hp hc
    simp only [hasChanged, hp, hc, jsTruthy, jsGt, Bool.and_eq_true, decide_eq_true_eq,
      List.contains, List.elem_iff, and_assoc]
  · decide

/-- Witness for C7 at the coffee samples. -/
theorem C7_restock_witness :
    jlookup coffeePrev "roastingDate" = some (.str "2025-07-02") ∧
    jlookup coffeeCurr "roastingDate" = some (.str "2025-07-10") ∧
    ((hasChanged coffeePrev coffeeCurr).isRestock = true ↔
      ("roastingDate" ∈ (hasChanged coffeePrev coffeeCurr).changedFields ∧
        "2025-07-02" ≠ "" ∧ "2025-07-10" ≠ "" ∧
        "2025-07-02".data < "2025-07-10".data)) :=
  ⟨by decide, by decide,
    C7_restock_amended.1 coffeePrev coffeeCurr "2025-07-02" "2025-07-10"
      (by decide) (by decide)⟩

/-! ## Claim C9: execution-only mode and the 404 status -/

/-- The event of the failing input: executionOnly with a planId that
matches no stored plan. -/
def c9Event : JValue :=
  jobj [("instruction", .str "Execute the cached plan"),
        ("url", .str "https://example.com"),
        ("options", jobj [("executionOnly", .bool true), ("planId", .str "plan-123")])]

/-- C9 evaluation at the failing input: validation strips executionOnly
and planId (the schema has no such keys), so routing takes the
interactive branch rather than the execution-only branch; and even when
the execution-only lookup runs, its PLAN_NOT_FOUND and NO_CACHED_PLAN
errors are mapped to HTTP 500, not 404 (only the never-thrown code
TASK_NOT_FOUND maps to 404). -/
theorem C9_plan_not_found_evaluation :
    parseTaskInput c9Event =
      some ⟨"Execute the cached plan", "https://example.com", none,
        some ⟨false, 60000, true, none, none, none, none⟩⟩ ∧
    handlerRoute
      ⟨"Execute the cached plan", "https://example.com", none,
        some ⟨false, 60000, true, none, none, none, none⟩⟩ false = .interactive ∧
    executionOnlyLookup (some "plan-123") (fun _ => none) none =
      .error (.taskExecution "Plan not found: plan-123" "PLAN_NOT_FOUND") ∧
    executionOnlyLookup none (fun _ => none) none =
      .error (.taskExecution
        "No cached plan found for this task. Use planOnly mode first to generate a plan."
        "NO_CACHED_PLAN") ∧
    getErrorStatusCode (.taskExecution "Plan not found: plan-123" "PLAN_NOT_FOUND") = 500 ∧
    getErrorStatusCode (.taskExecution
        "No cached plan found for this task. Use planOnly mode first to generate a plan."
        "NO_CACHED_PLAN") = 500 := by
  refine ⟨by decide, by decide, rfl, rfl, by decide, by decide⟩

/-! ## Claim C8: per-step retries -/

/-- A mandatory step with an explicit retry budget of 3. -/
def c8Step : ExecutionStep := ⟨"step-1", "click", "Click unreliable element", false, some 3⟩

/-- A one-step plan around c8Step. -/
def c8Plan : ExecutionPlan :=
  ⟨"retry-plan", "retry-test", "Test retry mechanism", "https://example.com", [c8Step]⟩

/-- C8 evaluation of the divergence: whatever a plan's leading
non-optional step sets as its retry budget, if its first two attempts
fail then the run makes exactly two executeStep calls (one retry), waits
exactly once for 1000 ms, and ends with status error (not failed) with
error.step the step id and metrics.retryCount 1 — never the claimed up
to step.retries retries with 1000 × attempt backoff and status failed. -/
theorem C8_retry_evaluation (plan : ExecutionPlan) (v : PlanValidation)
    (execOk : Nat → Bool) (evalCrit : String → Option Bool)
    (s : ExecutionStep) (rest : List ExecutionStep)
    (hsteps : plan.steps = s :: rest) (hopt : s.optional = false)
    (h0 : execOk 0 = false) (h1 : execOk 1 = false) :
    executePlan plan v true execOk evalCrit =
      { planId := plan.id, status := .error
        error := some ⟨"Step failed after 1 retries: " ++ s.description, some s.id⟩
        metrics := ⟨0, plan.steps.length, 1⟩, stepAttempts := 2,
        retryWaitsMs := [1000] } := by
  have hre : 0 < effRetries s := by
    unfold effRetries
    cases hr : s.retries with
    | none => decide
    | some n =>
      cases n with
      | zero => decide
      | succ m => exact Nat.succ_pos m
  have hrun : runSteps execOk (s :: rest) 0 0 0 [] =
      .thrown s.id ("Step failed after 1 retries: " ++ s.description) 2 0 1 [1000] := by
    unfold runSteps
    rw [if_neg (by simp [h0]), if_neg (by simp [hopt]), if_pos hre,
      if_neg (by simp [h1])]
    rfl
  unfold executePlan
  rw [hsteps, hrun]
  rfl

/-- Witness for the C8 divergence theorem: the concrete retry-test plan
whose single mandatory step (retries = 3) always fails. -/
theorem C8_retry_witness :
    c8Plan.steps = [c8Step] ∧ c8Step.optional = false ∧
    (fun _ : Nat => false) 0 = false ∧ (fun _ : Nat => false) 1 = false ∧
    executePlan c8Plan ⟨["clicked"], ["not clicked"]⟩ true
        (fun _ => false) (fun _ => some true) =
      { planId := "retry-plan", status := .error
        error := some ⟨"Step failed after 1 retries: Click unreliable element",
          some "step-1"⟩
        metrics := ⟨0, 1, 1⟩, stepAttempts := 2, retryWaitsMs := [1000] } :=
  ⟨rfl, rfl, rfl, rfl,
    C8_retry_evaluation c8Plan ⟨["clicked"], ["not clicked"]⟩ (fun _ => false)
      (fun _ => some true) c8Step [] rfl rfl rfl rfl⟩

/-! ## Claim C1: steps completed versus status -/

/-- C1 counterexample: a run whose only (optional) step fails validates
successfully with stepsCompleted 0 of 1; and a run whose step succeeds
but whose validation fails returns status failed with stepsCompleted
equal to stepsTotal. -/
theorem C1_counterexample :
    (executePlan ⟨"optional-plan", "sig-opt", "", "https://example.com",
        [⟨"step-1", "click", "Click optional button", true, none⟩]⟩
      ⟨[], []⟩ true (fun _ => false) (fun _ => some true)).status = .success ∧
    (executePlan ⟨"optional-plan", "sig-opt", "", "https://example.com",
        [⟨"step-1", "click", "Click optional button", true, none⟩]⟩
      ⟨[], []⟩ true (fun _ => false) (fun _ => some true)).metrics.stepsCompleted = 0 ∧
    (executePlan ⟨"optional-plan", "sig-opt", "", "https://example.com",
        [⟨"step-1", "click", "Click optional button", true, none⟩]⟩
      ⟨[], []⟩ true (fun _ => false) (fun _ => some true)).metrics.stepsTotal = 1 ∧
    (executePlan ⟨"validation-plan", "sig-val", "", "https://example.com",
        [⟨"step-1", "navigate", "", false, none⟩]⟩
      ⟨["loaded"], []⟩ true (fun _ => true) (fun _ => some false)).status = .failed ∧
    (executePlan ⟨"validation-plan", "sig-val", "", "https://example.com",
        [⟨"step-1", "navigate", "", false, none⟩]⟩
      ⟨["loaded"], []⟩ true (fun _ => true) (fun _ => some false)).metrics.stepsCompleted
      = 1 ∧
    (executePlan ⟨"validation-plan", "sig-val", "", "https://example.com",
        [⟨"step-1", "navigate", "", false, none⟩]⟩
      ⟨["loaded"], []⟩ true (fun _ => true) (fun _ => some false)).metrics.stepsTotal = 1 := by
  refine ⟨by decide, by decide, by decide, by decide, by decide, by decide⟩

/-- Steps completed reported by a loop outcome. -/
def doneOf : LoopOut → Nat
  | .done _ c _ _ => c
  | .thrown _ _ _ c _ _ => c

theorem runSteps_done_le (execOk : Nat → Bool) :
    ∀ (steps : List ExecutionStep) (att comp rc : Nat) (ws : List Nat),
      doneOf (runSteps execOk steps att comp rc ws) ≤ comp + steps.length := by
  intro steps
  induction steps with
  | nil =>
    intro att comp rc ws
    simp [runSteps, doneOf]
  | cons s rest ih =>
    intro att comp rc ws
    simp only [runSteps, List.length_cons]
    by_cases h1 : execOk att
    · rw [if_pos h1]
      have := ih (att + 1) (comp + 1) rc ws
      omega
    · rw [if_neg h1]
      by_cases h2 : s.optional
      · rw [if_pos h2]
        have := ih (att + 1) comp rc ws
        omega
      · rw [if_neg h2]
        by_cases h3 : rc < effRetries s
        · rw [if_pos h3]
          by_cases h4 : execOk (att + 1)
          · rw [if_pos h4]
            have := ih (att + 2) (comp + 1) 0 (ws ++ [1000 * (rc + 1)])
            omega
          · rw [if_neg h4]
            simp [doneOf]
        · rw [if_neg h3]
          simp [doneOf]

theorem runSteps_done_mandatory (execOk : Nat → Bool) :
    ∀ (steps : List ExecutionStep), (∀ s ∈ steps, s.optional = false) →
      ∀ (att comp rc : Nat) (ws : List Nat) (att2 comp2 rc2 : Nat) (ws2 : List Nat),
        runSteps execOk steps att comp rc ws = .done att2 comp2 rc2 ws2 →
        comp2 = comp + steps.length := by
  intro steps
  induction steps with
  | nil =>
    intro _ att comp rc ws att2 comp2 rc2 ws2 h
    simp only [runSteps] at h
    cases h
    simp
  | cons s rest ih =>
    intro hopt att comp rc ws att2 comp2 rc2 ws2 h
    simp only [runSteps, List.length_cons] at h ⊢
    have hrest : ∀ t ∈ rest, t.optional = false := fun t ht => hopt t (by simp [ht])
    by_cases h1 : execOk att
    · rw [if_pos h1] at h
      have := ih hrest (att + 1) (comp + 1) rc ws att2 comp2 rc2 ws2 h
      omega
    · rw [if_neg h1, hopt s (by simp), if_neg (by simp)] at h
      by_cases h3 : rc < effRetries s
      · rw [if_pos h3] at h
        by_cases h4 : execOk (att + 1)
        · rw [if_pos h4] at h
          have := ih hrest (att + 2) (comp + 1) 0 (ws ++ [1000 * (rc + 1)]) att2 comp2 rc2 ws2 h
          omega
        · rw [if_neg h4] at h
          cases h
      · rw [if_neg h3] at h
        cases h

/-- C1 amended: for every plan, validation bag, and behaviour of browser
and page evaluation, stepsCompleted never exceeds stepsTotal; and when
the plan has no optional steps, a run that ends with status success or
failed (the statuses produced after the loop completes) has
stepsCompleted equal to stepsTotal.  A failed optional step instead
lowers stepsCompleted without affecting a success status, and a
validation failure yields status failed with all steps completed. -/
theorem C1_steps_completed_amended (plan : ExecutionPlan) (v : PlanValidation)
    (binit : Bool) (execOk : Nat → Bool) (evalCrit : String → Option Bool) :
    (executePlan plan v binit execOk evalCrit).metrics.stepsCompleted ≤
      (executePlan plan v binit execOk evalCrit).metrics.stepsTotal ∧
    ((∀ s ∈ plan.steps, s.optional = false) →
      ((executePlan plan v binit execOk evalCrit).status = .success ∨
       (executePlan plan v binit execOk evalCrit).status = .failed) →
      (executePlan plan v binit execOk evalCrit).metrics.stepsCompleted =
        (executePlan plan v binit execOk evalCrit).metrics.stepsTotal) := by
  unfold executePlan
  cases binit with
  | false =>
    refine ⟨by simp, ?_⟩
    intro _ hst
    rcases hst with h | h <;> simp at h
  | true =>
    simp only [Bool.not_true, Bool.false_eq_true, if_false]
    rcases hr : runSteps execOk plan.steps 0 0 0 [] with
      ⟨att, comp, rc, ws⟩ | ⟨sid, msg, att, comp, rc, ws⟩
    · have hle := runSteps_done_le execOk plan.steps 0 0 0 []
      rw [hr] at hle
      simp only [doneOf] at hle
      refine ⟨by simpa using hle, ?_⟩
      intro hopt _
      have := runSteps_done_mandatory execOk plan.steps hopt 0 0 0 [] att comp rc ws hr
      simpa using this
    · have hle := runSteps_done_le execOk plan.steps 0 0 0 []
      rw [hr] at hle
      simp only [doneOf] at hle
      refine ⟨by simpa using hle, ?_⟩
      intro _ hst
      rcases hst with h | h <;> simp at h

/-- Witness for C1 on a one-step mandatory plan that succeeds. -/
theorem C1_steps_completed_witness :
    (∀ s ∈ [(⟨"step-1", "navigate", "", false, none⟩ : ExecutionStep)], s.optional = false) ∧
    ((executePlan ⟨"p", "sig", "", "https://example.com",
        [⟨"step-1", "navigate", "", false, none⟩]⟩ ⟨[], []⟩ true
        (fun _ => true) (fun _ => some true)).metrics.stepsCompleted ≤
      (executePlan ⟨"p", "sig", "", "https://example.com",
        [⟨"step-1", "navigate", "", false, none⟩]⟩ ⟨[], []⟩ true
        (fun _ => true) (fun _ => some true)).metrics.stepsTotal) :=
  ⟨by decide,
    (C1_steps_completed_amended ⟨"p", "sig", "", "https://example.com",
      [⟨"step-1", "navigate", "", false, none⟩]⟩ ⟨[], []⟩ true
      (fun _ => true) (fun _ => some true)).1⟩

/-! ## Claim C6: interactive run invariants -/

/-- Steps recorded by a loop outcome. -/
def stepsOf : AgentLoopOut → List IStep
  | .finished steps _ _ => steps
  | .crashed steps => steps

theorem agentLoop_length (env : AgentEnv) (cfg : AgentConfig) :
    ∀ (r sn : Nat) (steps : List IStep),
      (stepsOf (agentLoop env cfg r sn steps)).length ≤ steps.length + r := by
  intro r
  induction r with
  | zero =>
    intro sn steps
    simp [agentLoop, stepsOf]
  | succ r ih =>
    intro sn steps
    simp only [agentLoop]
    by_cases hc : env.crash sn
    · rw [if_pos hc]
      simp [stepsOf]
    · rw [if_neg hc]
      by_cases hcomp : ((env.llm sn).getD fallbackResp).isComplete
      · rw [if_pos hcomp]
        simp [stepsOf]
      · rw [if_neg hcomp]
        by_cases hst : detectStagnation cfg
            ((steps ++ [(⟨sn, ((env.llm sn).getD fallbackResp).actionType, env.execOk sn,
              ((env.llm sn).getD fallbackResp).score,
              ((env.llm sn).getD fallbackResp).isComplete⟩ : IStep)]).map IStep.progressScore)
        · rw [if_pos hst]
          simp [stepsOf]
        · rw [if_neg hst]
          have := ih (sn + 1)
            (steps ++ [(⟨sn, ((env.llm sn).getD fallbackResp).actionType, env.execOk sn,
              ((env.llm sn).getD fallbackResp).score,
              ((env.llm sn).getD fallbackResp).isComplete⟩ : IStep)])
          simp only [List.length_append, List.length_cons, List.length_nil] at this
          omega

theorem agentLoop_scores (env : AgentEnv) (cfg : AgentConfig)
    (hS : ∀ n r0, env.llm n = some r0 → 0 ≤ r0.score ∧ r0.score ≤ 1) :
    ∀ (r sn : Nat) (steps : List IStep),
      (∀ st ∈ steps, 0 ≤ st.progressScore ∧ st.progressScore ≤ 1) →
      ∀ st ∈ stepsOf (agentLoop env cfg r sn steps),
        0 ≤ st.progressScore ∧ st.progressScore ≤ 1 := by
  intro r
  induction r with
  | zero =>
    intro sn steps hin st hst
    simp only [agentLoop, stepsOf] at hst
    exact hin st hst
  | succ r ih =>
    intro sn steps hin st hst
    have hscore : 0 ≤ ((env.llm sn).getD fallbackResp).score ∧
        ((env.llm sn).getD fallbackResp).score ≤ 1 := by
      cases hl : env.llm sn with
      | none => simp [hl, fallbackResp]
      | some r0 => simpa [hl] using hS sn r0 hl
    have hin2 : ∀ t ∈ steps ++ [(⟨sn, ((env.llm sn).getD fallbackResp).actionType,
        env.execOk sn, ((env.llm sn).getD fallbackResp).score,
        ((env.llm sn).getD fallbackResp).isComplete⟩ : IStep)],
        0 ≤ t.progressScore ∧ t.progressScore ≤ 1 := by
      intro t ht
      rcases List.mem_append.mp ht with h | h
      · exact hin t h
      · simp only [List.mem_singleton] at h
        subst h
        exact hscore
    simp only [agentLoop] at hst
    by_cases hc : env.crash sn
    · rw [if_pos hc] at hst
      exact hin st hst
    · rw [if_neg hc] at hst
      by_cases hcomp : ((env.llm sn).getD fallbackResp).isComplete
      · rw [if_pos hcomp] at hst
        exact hin2 st hst
      · rw [if_neg hcomp] at hst
        by_cases hstag : detectStagnation cfg
            ((steps ++ [(⟨sn, ((env.llm sn).getD fallbackResp).actionType, env.execOk sn,
              ((env.llm sn).getD fallbackResp).score,
              ((env.llm sn).getD fallbackResp).isComplete⟩ : IStep)]).map IStep.progressScore)
        · rw [if_pos hstag] at hst
          exact hin2 st hst
        · rw [if_neg hstag] at hst
          exact ih (sn + 1) _ hin2 st hst

theorem agentLoop_complete (env : AgentEnv) (cfg : AgentConfig) :
    ∀ (r sn : Nat) (steps steps2 : List IStep) (stagR : Option String),
      agentLoop env cfg r sn steps = .finished steps2 true stagR →
      ∃ st, steps2.getLast? = some st ∧ st.isComplete = true := by
  intro r
  induction r with
  | zero =>
    intro sn steps steps2 stagR h
    simp only [agentLoop] at h
    cases h
  | succ r ih =>
    intro sn steps steps2 stagR h
    simp only [agentLoop] at h
    by_cases hc : env.crash sn
    · rw [if_pos hc] at h
      cases h
    · rw [if_neg hc] at h
      by_cases hcomp : ((env.llm sn).getD fallbackResp).isComplete
      · rw [if_pos hcomp] at h
        injection h with h1 h2 h3
        subst h1
        refine ⟨_, List.getLast?_concat _, ?_⟩
        simpa using hcomp
      · rw [if_neg hcomp] at h
        by_cases hstag : detectStagnation cfg
            ((steps ++ [(⟨sn, ((env.llm sn).getD fallbackResp).actionType, env.execOk sn,
              ((env.llm sn).getD fallbackResp).score,
              ((env.llm sn).getD fallbackResp).isComplete⟩ : IStep)]).map IStep.progressScore)
        · rw [if_pos hstag] at h
          cases h
        · rw [if_neg hstag] at h
          exact ih (sn + 1) _ steps2 stagR h

/-- C6 amended: every run records at most maxSteps steps, and success
implies the last recorded step has isComplete — both unconditionally;
the progress scores are recorded unvalidated from the LLM response, so
they all lie in the unit interval exactly when every LLM-supplied score
does (the fallback score 0 always does).  The unconditional [0,1] bound
of the claim fails, see the counterexample. -/
theorem C6_run_invariants (env : AgentEnv) (cfg : AgentConfig) :
    (executeInteractively env cfg).steps.length ≤ cfg.maxSteps ∧
    ((∀ n r0, env.llm n = some r0 → 0 ≤ r0.score ∧ r0.score ≤ 1) →
      ∀ st ∈ (executeInteractively env cfg).steps,
        0 ≤ st.progressScore ∧ st.progressScore ≤ 1) ∧
    ((executeInteractively env cfg).success = true →
      ∃ st, (executeInteractively env cfg).steps.getLast? = some st ∧
        st.isComplete = true) := by
  unfold executeInteractively
  rcases hr : agentLoop env cfg cfg.maxSteps 1 [] with
    ⟨steps, isComplete, stagR⟩ | ⟨steps⟩
  · have hlen := agentLoop_length env cfg cfg.maxSteps 1 []
    rw [hr] at hlen
    simp only [stepsOf, List.length_nil, Nat.zero_add] at hlen
    refine ⟨hlen, ?_, ?_⟩
    · intro hS
      have hsc := agentLoop_scores env cfg hS cfg.maxSteps 1 [] (by simp)
      rw [hr] at hsc
      simp only [stepsOf] at hsc
      exact hsc
    · intro hsucc
      simp only at hsucc
      subst hsucc
      exact agentLoop_complete env cfg cfg.maxSteps 1 [] steps stagR hr
  · have hlen := agentLoop_length env cfg cfg.maxSteps 1 []
    rw [hr] at hlen
    simp only [stepsOf, List.length_nil, Nat.zero_add] at hlen
    refine ⟨hlen, ?_, ?_⟩
    · intro hS
      have hsc := agentLoop_scores env cfg hS cfg.maxSteps 1 [] (by simp)
      rw [hr] at hsc
      simp only [stepsOf] at hsc
      exact hsc
    · intro hsucc
      simp at hsucc

/-- LLM oracle of the C6 counterexample: the first response reports a
progress score of 2 and completion. -/
def c6Env : AgentEnv :=
  ⟨fun n => if n = 1 then some ⟨"extract", 2, true⟩ else none,
   fun _ => true, fun _ => false⟩

/-- C6 counterexample: an LLM response with score 2 is recorded as-is
(the handler never clamps it), so a successful run can carry a
progressScore outside the unit interval. -/
theorem C6_counterexample :
    (executeInteractively c6Env defaultAgentConfig).success = true ∧
    (executeInteractively c6Env defaultAgentConfig).steps.map IStep.progressScore
      = [2] ∧
    ¬((2 : ℚ) ≤ 1) := by
  refine ⟨by decide, by decide, by decide⟩

/-- Benign LLM oracle for the C6 witness. -/
def c6WitnessEnv : AgentEnv :=
  ⟨fun _ => some ⟨"wait", 1 / 2, false⟩, fun _ => true, fun _ => false⟩

/-- Witness for C6 on a run whose LLM scores all lie in the unit
interval. -/
theorem C6_run_invariants_witness :
    (executeInteractively c6WitnessEnv defaultAgentConfig).steps.length ≤
      defaultAgentConfig.maxSteps ∧
    (∀ st ∈ (executeInteractively c6WitnessEnv defaultAgentConfig).steps,
      0 ≤ st.progressScore ∧ st.progressScore ≤ 1) ∧
    ((executeInteractively c6WitnessEnv defaultAgentConfig).success = true →
      ∃ st, (executeInteractively c6WitnessEnv defaultAgentConfig).steps.getLast?
          = some st ∧ st.isComplete = true) :=
  ⟨(C6_run_invariants c6WitnessEnv defaultAgentConfig).1,
   (C6_run_invariants c6WitnessEnv defaultAgentConfig).2.1
     (fun n r0 h => by
       injection h with h2
       rw [← h2]
       exact ⟨by norm_num, by norm_num⟩),
   (C6_run_invariants c6WitnessEnv defaultAgentConfig).2.2⟩

/-! ## Claim C4: the three task signatures are pairwise distinct -/

theorem md5Hex_ne_of_colon {t : String} (hc : ':' ∈ t.data) (s : String) :
    md5Hex s ≠ t := by
  intro he
  have hmem : ':' ∈ (md5Hex s).data := he.symm ▸ hc
  have := md5Hex_mem hmem
  revert this
  decide

theorem sha256Hex_ne_of_colon {t : String} (hc : ':' ∈ t.data) (s : String) :
    sha256Hex s ≠ t := by
  intro he
  have hmem : ':' ∈ (sha256Hex s).data := he.symm ▸ hc
  have := sha256Hex_mem hmem
  revert this
  decide

theorem colon_mem_iba (instruction url : String) :
    ':' ∈ (ibaCreateTaskSignature instruction url).data := by
  simp [ibaCreateTaskSignature, strData_append]

theorem md5Hex_ne_sha256Hex (s t : String) : md5Hex s ≠ sha256Hex t := by
  intro he
  have h1 := md5Hex_length s
  rw [he, sha256Hex_length] at h1
  exact absurd h1 (by decide)

theorem localGet_set_empty_ne (k₁ k₂ : String) (p : ExecutionPlan) (h : k₁ ≠ k₂) :
    (localGet (localSet [] k₁ p) k₂).1 = none := by
  simp [localSet, localGet, List.find?, h]

/-- C4: for every instruction and every parseable http(s) URL, the three
task-signature functions return pairwise distinct strings (MD5 hex has
32 hex characters, the interactive signature contains a double colon,
SHA-256 hex has 64 hex characters), and consequently a plan stored in
the in-memory cache under any one of the signatures is never found by a
lookup that uses another of them. -/
theorem C4_signatures_pairwise_distinct (instruction url : String) (u : UrlParts)
    (hparse : parseHttpUrl url = some u) (g : String)
    (hg : generateTaskSignature instruction url = some g) :
    (g ≠ ibaCreateTaskSignature instruction url ∧
     g ≠ pgCreateTaskSignature instruction url ∧
     ibaCreateTaskSignature instruction url ≠ pgCreateTaskSignature instruction url) ∧
    ∀ p : ExecutionPlan,
      (localGet (localSet [] g p) (ibaCreateTaskSignature instruction url)).1 = none ∧
      (localGet (localSet [] g p) (pgCreateTaskSignature instruction url)).1 = none ∧
      (localGet (localSet [] (ibaCreateTaskSignature instruction url) p) g).1 = none ∧
      (localGet (localSet [] (ibaCreateTaskSignature instruction url) p)
        (pgCreateTaskSignature instruction url)).1 = none ∧
      (localGet (localSet [] (pgCreateTaskSignature instruction url) p) g).1 = none ∧
      (localGet (localSet [] (pgCreateTaskSignature instruction url) p)
        (ibaCreateTaskSignature instruction url)).1 = none := by
  have hgeq : g = md5Hex (jsTrim (jsToLower instruction) ++ "_" ++ u.hostname) := by
    rw [generateTaskSignature, hparse] at hg
    simpa using hg.symm
  have h1 : g ≠ ibaCreateTaskSignature instruction url := by
    rw [hgeq]
    exact md5Hex_ne_of_colon (colon_mem_iba instruction url) _
  have h2 : g ≠ pgCreateTaskSignature instruction url := by
    rw [hgeq]
    exact md5Hex_ne_sha256Hex _ _
  have h3 : ibaCreateTaskSignature instruction url ≠
      pgCreateTaskSignature instruction url := by
    intro he
    exact sha256Hex_ne_of_colon (colon_mem_iba instruction url) _ he.symm
  refine ⟨⟨h1, h2, h3⟩, fun p => ?_⟩
  exact ⟨localGet_set_empty_ne _ _ p h1, localGet_set_empty_ne _ _ p h2,
    localGet_set_empty_ne _ _ p (Ne.symm h1), localGet_set_empty_ne _ _ p h3,
    localGet_set_empty_ne _ _ p (Ne.symm h2), localGet_set_empty_ne _ _ p (Ne.symm h3)⟩

/-- Witness for C4 at a concrete instruction and URL. -/
theorem C4_signatures_witness :
    (("1a39a8f6309b5a8e51d5072bca20a85b" : String) ≠
        ibaCreateTaskSignature "Find the price" "https://example.com" ∧
      ("1a39a8f6309b5a8e51d5072bca20a85b" : String) ≠
        pgCreateTaskSignature "Find the price" "https://example.com" ∧
      ibaCreateTaskSignature "Find the price" "https://example.com" ≠
        pgCreateTaskSignature "Find the price" "https://example.com") ∧
    ∀ p : ExecutionPlan,
      (localGet (localSet [] "1a39a8f6309b5a8e51d5072bca20a85b" p)
        (ibaCreateTaskSignature "Find the price" "https://example.com")).1 = none ∧
      (localGet (localSet [] "1a39a8f6309b5a8e51d5072bca20a85b" p)
        (pgCreateTaskSignature "Find the price" "https://example.com")).1 = none ∧
      (localGet (localSet []
        (ibaCreateTaskSignature "Find the price" "https://example.com") p)
        "1a39a8f6309b5a8e51d5072bca20a85b").1 = none ∧
      (localGet (localSet []
        (ibaCreateTaskSignature "Find the price" "https://example.com") p)
        (pgCreateTaskSignature "Find the price" "https://example.com")).1 = none ∧
      (localGet (localSet []
        (pgCreateTaskSignature "Find the price" "https://example.com") p)
        "1a39a8f6309b5a8e51d5072bca20a85b").1 = none ∧
      (localGet (localSet []
        (pgCreateTaskSignature "Find the price" "https://example.com") p)
        (ibaCreateTaskSignature "Find the price" "https://example.com")).1 = none :=
  C4_signatures_pairwise_distinct "Find the price" "https://example.com"
    ⟨"https:", "example.com", "/"⟩ (by decide)
    "1a39a8f6309b5a8e51d5072bca20a85b" (by decide)

/-! ## Claim C2: task-signature normalisation invariance -/

theorem strData_mk (l : List Char) : (String.mk l).data = l := rfl

/-- C2 counterexample: two instructions differing only by an internal
whitespace run give different handler signatures, and two URLs differing
only by a trailing slash on the path give different PlanGenerator
signatures. -/
theorem C2_counterexample :
    generateTaskSignature "check  price" "https://example.com" ≠
      generateTaskSignature "check price" "https://example.com" ∧
    pgCreateTaskSignature "check price" "https://example.com/shop" ≠
      pgCreateTaskSignature "check price" "https://example.com/shop/" := by
  refine ⟨by decide, by decide⟩

/-- C2 amended: the handler signature generateTaskSignature is invariant
under leading and trailing whitespace and letter case of the instruction
and under path changes (trailing slash included) and scheme or hostname
case of the URL, but not under internal whitespace runs; the
PlanGenerator signature is invariant under whitespace (internal runs
included) and case of the instruction and under scheme or hostname case
of the URL, but not under a trailing slash on a non-root path. -/
theorem C2_signature_invariance_amended :
    (∀ (i u : String) (w₁ w₂ : List Char), AllWs w₁ → AllWs w₂ →
      generateTaskSignature ⟨w₁ ++ i.data ++ w₂⟩ u = generateTaskSignature i u) ∧
    (∀ (i₁ i₂ u : String), jsToLower i₁ = jsToLower i₂ →
      generateTaskSignature i₁ u = generateTaskSignature i₂ u) ∧
    (∀ (i sch sch2 host host2 path path2 : String),
      SchemeOk sch → SchemeOk sch2 → HostOk host → HostOk host2 →
      PathOk path → PathOk path2 →
      host.data.map charToLower = host2.data.map charToLower →
      generateTaskSignature i (renderUrl sch host path) =
        generateTaskSignature i (renderUrl sch2 host2 path2)) ∧
    (∀ (i₁ i₂ u : String),
      trimList (collapseWs (jsToLower i₁).data) =
        trimList (collapseWs (jsToLower i₂).data) →
      pgCreateTaskSignature i₁ u = pgCreateTaskSignature i₂ u) ∧
    (∀ (i sch sch2 host host2 path : String),
      SchemeOk sch → SchemeOk sch2 → HostOk host → HostOk host2 → PathOk path →
      sch.data.map charToLower = sch2.data.map charToLower →
      host.data.map charToLower = host2.data.map charToLower →
      pgCreateTaskSignature i (renderUrl sch host path) =
        pgCreateTaskSignature i (renderUrl sch2 host2 path)) := by
  refine ⟨?_, ?_, ?_, ?_, ?_⟩
  · intro i u w₁ w₂ h₁ h₂
    have key : jsTrim (jsToLower ⟨w₁ ++ i.data ++ w₂⟩) = jsTrim (jsToLower i) := by
      unfold jsTrim jsToLower
      rw [strData_mk, strData_mk, strData_mk, List.map_append, List.map_append,
        map_charToLower_ws h₁, map_charToLower_ws h₂, trimList_pad h₁ h₂]
    unfold generateTaskSignature
    cases parseHttpUrl u with
    | none => rfl
    | some up => simp only [Option.map_some', key]
  · intro i₁ i₂ u h
    unfold generateTaskSignature
    cases parseHttpUrl u with
    | none => rfl
    | some up => simp only [Option.map_some', h]
  · intro i sch sch2 host host2 path path2 hs hs2 hh hh2 hp hp2 hhost
    unfold generateTaskSignature
    rw [parseHttpUrl_render hs hh hp, parseHttpUrl_render hs2 hh2 hp2]
    simp only [Option.map_some']
    rw [hhost]
  · intro i₁ i₂ u h
    unfold pgCreateTaskSignature pgNormalizeInstruction
    rw [trim_removeNonWord_congr h]
  · intro i sch sch2 host host2 path hs hs2 hh hh2 hp hsch hhost
    unfold pgCreateTaskSignature pgNormalizeUrl
    rw [parseHttpUrl_render hs hh hp, parseHttpUrl_render hs2 hh2 hp]
    simp only []
    rw [hsch, hhost]

/-- Witness for C2: leading-whitespace padding of a concrete instruction
leaves the handler signature unchanged. -/
theorem C2_signature_invariance_witness :
    AllWs [' '] ∧ AllWs ([] : List Char) ∧
    generateTaskSignature ⟨[' '] ++ "check price".data ++ []⟩ "https://example.com" =
      generateTaskSignature "check price" "https://example.com" :=
  ⟨fun c hc => by simp only [List.mem_singleton] at hc; subst hc; rfl,
   fun c hc => absurd hc (List.not_mem_nil c),
    C2_signature_invariance_amended.1 "check price" "https://example.com" [' '] []
      (fun c hc => by simp only [List.mem_singleton] at hc; subst hc; rfl)
      (fun c hc => absurd hc (List.not_mem_nil c))⟩

/-! ## Claim C3: cache put / get round trips -/

theorem find?_ext {α : Type} (p q : α → Bool) :
    ∀ l : List α, (∀ a ∈ l, p a = q a) → l.find? p = l.find? q := by
  intro l
  induction l with
  | nil => intro _; rfl
  | cons a r ih =>
    intro h
    simp only [List.find?]
    rw [h a (by simp)]
    cases q a with
    | true => rfl
    | false => exact ih (fun b hb => h b (by simp [hb]))

theorem find?_key_nodup {α β : Type} [DecidableEq β] (key : α → β) :
    ∀ l : List α, (l.map key).Nodup → ∀ a ∈ l,
      l.find? (fun x => key x = key a) = some a := by
  intro l
  induction l with
  | nil =>
    intro _ a ha
    cases ha
  | cons b r ih =>
    intro hnd a ha
    rw [List.map_cons, List.nodup_cons] at hnd
    obtain ⟨hbn, hrd⟩ := hnd
    simp only [List.find?]
    by_cases hk : key b = key a
    · have hab : a = b := by
        rcases List.mem_cons.mp ha with h | h
        · exact h
        · exact absurd (hk.symm ▸ List.mem_map_of_mem key h) hbn
      subst hab
      simp [hk]
    · have hd : decide (key b = key a) = false := by simp [hk]
      rw [hd]
      rcases List.mem_cons.mp ha with h | h
      · exact absurd (h ▸ rfl) hk
      · exact ih hrd a h

/-- Map.set followed by Map.get on the same key returns the stored plan
and leaves the cache state untouched (Map.get performs no write). -/
theorem localSet_get (m : LocalCache) (k : String) (p : ExecutionPlan) :
    localGet (localSet m k p) k = (some p, localSet m k p) := by
  unfold localGet
  refine Prod.ext ?_ rfl
  show (((localSet m k p).find? (fun e => e.1 = k)).map (fun e => e.2)) = some p
  unfold localSet
  by_cases hany : m.any (fun e => e.1 = k)
  · rw [if_pos hany]
    have hpf : ((fun (e : String × ExecutionPlan) => decide (e.1 = k)) ∘
        (fun e => if e.1 = k then (k, p) else e)) =
        fun (e : String × ExecutionPlan) => decide (e.1 = k) := by
      funext e
      by_cases h : e.1 = k <;> simp [h]
    rw [List.find?_map, hpf]
    obtain ⟨e₀, he₀⟩ : ∃ e₀, m.find? (fun e => decide (e.1 = k)) = some e₀ := by
      have hex2 : ∃ x ∈ m, (fun (e : String × ExecutionPlan) => decide (e.1 = k)) x = true :=
        List.any_eq_true.mp hany
      exact Option.isSome_iff_exists.mp (List.find?_isSome.mpr hex2)
    rw [he₀]
    have he₁ : e₀.1 = k := by simpa using List.find?_some he₀
    simp [he₁]
  · rw [if_neg hany, List.find?_append]
    have hnone : m.find? (fun e => decide (e.1 = k)) = none := by
      rw [List.find?_eq_none]
      intro x hx
      simp only [decide_eq_true_eq]
      intro hxk
      exact hany (List.any_eq_true.mpr ⟨x, hx, by simp [hxk]⟩)
    rw [hnone]
    simp [List.find?]

/-- A plan stored in the in-memory fallback. -/
def planA : ExecutionPlan :=
  ⟨"plan-a", "sig-1", "Check the price", "https://example.com",
   [⟨"step-1", "navigate", "", false, none⟩]⟩

/-- C3 counterexample: on the in-memory fallback a hit returns the
stored plan but leaves the whole cache state unchanged (so no entry
attribute, hitCount included, increases), and the statistics after the
hit report no per-entry hit counts at all. -/
theorem C3_counterexample :
    localGet (localSet [] "sig-1" planA) "sig-1" =
      (some planA, localSet [] "sig-1" planA) ∧
    (localGetStats ((localGet (localSet [] "sig-1" planA) "sig-1").2)).topPlans = [] ∧
    (localGetStats ((localGet (localSet [] "sig-1" planA) "sig-1").2)).totalEntries = 1 := by
  refine ⟨by decide, by decide, by decide⟩

/-- Behaviour of getCachedPlan on a database whose cache row for the
signature is findable, in the future, and joined to a plan row: the
stored plan is returned and exactly that row's hit count is bumped. -/
theorem getCachedPlan_hit (db₁ : Db) (ts : String) (now₂ : Int)
    (row : PlanRow) (centry : CacheRow)
    (hfindHit : db₁.planCache.find?
      (fun r => r.cacheKey = generateCacheKey ts && now₂ < r.expiresAt) = some centry)
    (hfindKey : db₁.planCache.find?
      (fun r => r.cacheKey = generateCacheKey ts) = some centry)
    (hjoin : db₁.executionPlans.find? (fun pr => pr.id = centry.planId) = some row) :
    (getCachedPlan db₁ ts now₂).1 = some row.plan ∧
    hitCountAt (getCachedPlan db₁ ts now₂).2 ts = centry.hitCount + 1 ∧
    hitCountAt db₁ ts = centry.hitCount := by
  have hckey : centry.cacheKey = generateCacheKey ts := by
    have := List.find?_some hfindKey
    simpa using this
  unfold getCachedPlan
  dsimp only []
  rw [hfindHit]
  dsimp only []
  rw [hjoin]
  dsimp only []
  refine ⟨rfl, ?_, ?_⟩
  · unfold hitCountAt
    have hcomp : ((fun (r : CacheRow) => decide (r.cacheKey = generateCacheKey ts)) ∘
        (fun r => if r.cacheKey = generateCacheKey ts then
          { r with hitCount := r.hitCount + 1, lastUsed := now₂ } else r)) =
        fun (r : CacheRow) => decide (r.cacheKey = generateCacheKey ts) := by
      funext r
      by_cases h : r.cacheKey = generateCacheKey ts <;> simp [h]
    show ((List.find? _ (db₁.planCache.map _)).map CacheRow.hitCount).getD 0 = _
    rw [List.find?_map, hcomp, hfindKey]
    simp [hckey]
  · unfold hitCountAt
    rw [hfindKey]
    rfl

/-- Closed form of cachePlan once the re-select after the plan upsert is
known to find a row. -/
theorem cachePlan_some (db : Db) (p : ExecutionPlan) (ttl : Option Int) (now : Int)
    (row : PlanRow)
    (h : (if db.executionPlans.any (fun r => r.taskSignature = p.taskSignature) then
            db.executionPlans.map (fun r =>
              if r.taskSignature = p.taskSignature then
                { r with plan := p, version := r.version + 1 }
              else r)
          else db.executionPlans ++ [⟨p.id, p.taskSignature, p, 1, true⟩]).find?
            (fun r => r.taskSignature = p.taskSignature) = some row) :
    cachePlan db p ttl now = some (row.id,
      ⟨if db.executionPlans.any (fun r => r.taskSignature = p.taskSignature) then
          db.executionPlans.map (fun r =>
            if r.taskSignature = p.taskSignature then
              { r with plan := p, version := r.version + 1 }
            else r)
        else db.executionPlans ++ [⟨p.id, p.taskSignature, p, 1, true⟩],
       if db.planCache.any (fun r => r.cacheKey = generateCacheKey p.taskSignature) then
          db.planCache.map (fun r =>
            if r.cacheKey = generateCacheKey p.taskSignature then
              { r with
                  planId := row.id,
                  expiresAt := now + ttl.getD defaultTTL,
                  lastUsed := now }
            else r)
        else db.planCache ++ [⟨generateCacheKey p.taskSignature, row.id, 0, now,
          now + ttl.getD defaultTTL⟩]⟩) := by
  unfold cachePlan
  dsimp only []
  rw [h]
  rfl

/-- C3 amended: a cachePlan followed by getCachedPlan on the same task
signature before expiry returns the stored plan on both backends; on the
database backend the hit strictly increments the entry's hitCount; the
in-memory fallback keeps no hit counter at all — its get performs no
write (the returned state is the very state passed in). -/
theorem C3_cache_roundtrip_amended :
    (∀ (m : LocalCache) (sig : String) (q : ExecutionPlan),
      localGet (localSet m sig q) sig = (some q, localSet m sig q)) ∧
    (∀ (db : Db) (p : ExecutionPlan) (ttl now₁ now₂ : Int),
      DbWf db → FreshId db p → now₂ < now₁ + ttl →
      ∀ (pid : String) (db₁ : Db),
        cachePlan db p (some ttl) now₁ = some (pid, db₁) →
        (getCachedPlan db₁ p.taskSignature now₂).1 = some p ∧
        hitCountAt (getCachedPlan db₁ p.taskSignature now₂).2 p.taskSignature =
          hitCountAt db₁ p.taskSignature + 1) := by
  refine ⟨localSet_get, ?_⟩
  intro db p ttl now₁ now₂ hwf hfresh hexp pid db₁ hcp
  obtain ⟨hidnd, htsnd, hcknd⟩ := hwf
  -- facts about the plan-row upsert
  obtain ⟨row, hfindTs, hrowPlan, hrowId⟩ :
      ∃ row,
        ((if db.executionPlans.any (fun r => r.taskSignature = p.taskSignature) then
            db.executionPlans.map (fun r =>
              if r.taskSignature = p.taskSignature then
                { r with plan := p, version := r.version + 1 }
              else r)
          else db.executionPlans ++ [⟨p.id, p.taskSignature, p, 1, true⟩]).find?
            (fun r => r.taskSignature = p.taskSignature)) = some row ∧
        row.plan = p ∧
        ((if db.executionPlans.any (fun r => r.taskSignature = p.taskSignature) then
            db.executionPlans.map (fun r =>
              if r.taskSignature = p.taskSignature then
                { r with plan := p, version := r.version + 1 }
              else r)
          else db.executionPlans ++ [⟨p.id, p.taskSignature, p, 1, true⟩]).find?
            (fun pr => pr.id = row.id)) = some row := by
    by_cases hex : db.executionPlans.any (fun r => r.taskSignature = p.taskSignature)
    · rw [if_pos hex]
      obtain ⟨r₁, hr₁⟩ : ∃ r₁, db.executionPlans.find?
          (fun r => decide (r.taskSignature = p.taskSignature)) = some r₁ :=
        Option.isSome_iff_exists.mp (List.find?_isSome.mpr (List.any_eq_true.mp hex))
      have hr₁ts : r₁.taskSignature = p.taskSignature := by
        simpa using List.find?_some hr₁
      have hr₁mem : r₁ ∈ db.executionPlans := List.mem_of_find?_eq_some hr₁
      have hcompTs : ((fun (r : PlanRow) => decide (r.taskSignature = p.taskSignature)) ∘
          (fun r => if r.taskSignature = p.taskSignature then
            { r with plan := p, version := r.version + 1 } else r)) =
          fun (r : PlanRow) => decide (r.taskSignature = p.taskSignature) := by
        funext r
        by_cases h : r.taskSignature = p.taskSignature <;> simp [h]
      have hfr : (if r₁.taskSignature = p.taskSignature then
          { r₁ with plan := p, version := r₁.version + 1 } else r₁) =
          { r₁ with plan := p, version := r₁.version + 1 } := if_pos hr₁ts
      refine ⟨{ r₁ with plan := p, version := r₁.version + 1 }, ?_, rfl, ?_⟩
      · rw [List.find?_map, hcompTs, hr₁]
        simp [hfr]
      · have hmem2 : { r₁ with plan := p, version := r₁.version + 1 } ∈
            db.executionPlans.map (fun r =>
              if r.taskSignature = p.taskSignature then
                { r with plan := p, version := r.version + 1 } else r) := by
          have hmm := List.mem_map_of_mem (fun r =>
            if r.taskSignature = p.taskSignature then
              { r with plan := p, version := r.version + 1 } else r) hr₁mem
          dsimp only [] at hmm
          rwa [hfr] at hmm
        have hnd2 : ((db.executionPlans.map (fun r =>
            if r.taskSignature = p.taskSignature then
              { r with plan := p, version := r.version + 1 } else r)).map
            PlanRow.id).Nodup := by
          rw [List.map_map]
          have hcompId : (PlanRow.id ∘ (fun r =>
              if r.taskSignature = p.taskSignature then
                { r with plan := p, version := r.version + 1 } else r)) = PlanRow.id := by
            funext r
            by_cases h : r.taskSignature = p.taskSignature <;> simp [h]
          rw [hcompId]
          exact hidnd
        exact find?_key_nodup PlanRow.id _ hnd2 _ hmem2
    · rw [if_neg hex]
      have hallts : ∀ r ∈ db.executionPlans, r.taskSignature ≠ p.taskSignature := by
        intro r hr hts
        exact hex (List.any_eq_true.mpr ⟨r, hr, by simp [hts]⟩)
      have hfnone : db.executionPlans.find?
          (fun r => decide (r.taskSignature = p.taskSignature)) = none := by
        rw [List.find?_eq_none]
        intro r hr
        simp [hallts r hr]
      refine ⟨⟨p.id, p.taskSignature, p, 1, true⟩, ?_, rfl, ?_⟩
      · rw [List.find?_append, hfnone]
        simp [List.find?]
      · have hnd2 : ((db.executionPlans ++
            [(⟨p.id, p.taskSignature, p, 1, true⟩ : PlanRow)]).map PlanRow.id).Nodup := by
          rw [List.map_append]
          refine List.Nodup.append hidnd (by simp) ?_
          intro x hx hx2
          simp only [List.map_cons, List.map_nil, List.mem_singleton] at hx2
          obtain ⟨r, hr, hrid⟩ := List.mem_map.mp hx
          subst hx2
          exact hfresh r hr (hallts r hr) hrid
        have hmem2 : (⟨p.id, p.taskSignature, p, 1, true⟩ : PlanRow) ∈
            db.executionPlans ++ [(⟨p.id, p.taskSignature, p, 1, true⟩ : PlanRow)] := by
          simp
        exact find?_key_nodup PlanRow.id _ hnd2 _ hmem2
  -- reduce the cachePlan equation with the find fact
  rw [cachePlan_some db p (some ttl) now₁ row hfindTs] at hcp
  simp only [Option.getD_some] at hcp
  have hpair := Option.some.inj hcp
  rw [Prod.mk.injEq] at hpair
  obtain ⟨hpid, hdb⟩ := hpair
  subst hdb
  -- facts about the cache-row upsert
  obtain ⟨centry, hfindHit, hfindKey, hcPid, hcHit⟩ :
      ∃ centry,
        ((if db.planCache.any (fun r => r.cacheKey = generateCacheKey p.taskSignature) then
            db.planCache.map (fun r =>
              if r.cacheKey = generateCacheKey p.taskSignature then
                { r with planId := row.id, expiresAt := now₁ + ttl, lastUsed := now₁ }
              else r)
          else db.planCache ++
            [⟨generateCacheKey p.taskSignature, row.id, 0, now₁, now₁ + ttl⟩]).find?
            (fun r => r.cacheKey = generateCacheKey p.taskSignature &&
              now₂ < r.expiresAt)) = some centry ∧
        ((if db.planCache.any (fun r => r.cacheKey = generateCacheKey p.taskSignature) then
            db.planCache.map (fun r =>
              if r.cacheKey = generateCacheKey p.taskSignature then
                { r with planId := row.id, expiresAt := now₁ + ttl, lastUsed := now₁ }
              else r)
          else db.planCache ++
            [⟨generateCacheKey p.taskSignature, row.id, 0, now₁, now₁ + ttl⟩]).find?
            (fun r => r.cacheKey = generateCacheKey p.taskSignature)) = some centry ∧
        centry.planId = row.id ∧ True := by
    by_cases hck : db.planCache.any (fun r => r.cacheKey = generateCacheKey p.taskSignature)
    · rw [if_pos hck]
      obtain ⟨c₁, hc₁⟩ : ∃ c₁, db.planCache.find?
          (fun r => decide (r.cacheKey = generateCacheKey p.taskSignature)) = some c₁ :=
        Option.isSome_iff_exists.mp (List.find?_isSome.mpr (List.any_eq_true.mp hck))
      have hc₁k : c₁.cacheKey = generateCacheKey p.taskSignature := by
        simpa using List.find?_some hc₁
      have hgc : (if c₁.cacheKey = generateCacheKey p.taskSignature then
          { c₁ with planId := row.id, expiresAt := now₁ + ttl, lastUsed := now₁ }
          else c₁) =
          { c₁ with planId := row.id, expiresAt := now₁ + ttl, lastUsed := now₁ } :=
        if_pos hc₁k
      have hcompHit : ((fun (r : CacheRow) =>
          decide (r.cacheKey = generateCacheKey p.taskSignature) &&
            decide (now₂ < r.expiresAt)) ∘
          (fun r => if r.cacheKey = generateCacheKey p.taskSignature then
            { r with planId := row.id, expiresAt := now₁ + ttl, lastUsed := now₁ }
            else r)) =
          fun (r : CacheRow) => decide (r.cacheKey = generateCacheKey p.taskSignature) := by
        funext r
        by_cases h : r.cacheKey = generateCacheKey p.taskSignature <;> simp [h, hexp]
      have hcompKey : ((fun (r : CacheRow) =>
          decide (r.cacheKey = generateCacheKey p.taskSignature)) ∘
          (fun r => if r.cacheKey = generateCacheKey p.taskSignature then
            { r with planId := row.id, expiresAt := now₁ + ttl, lastUsed := now₁ }
            else r)) =
          fun (r : CacheRow) => decide (r.cacheKey = generateCacheKey p.taskSignature) := by
        funext r
        by_cases h : r.cacheKey = generateCacheKey p.taskSignature <;> simp [h]
      refine ⟨{ c₁ with planId := row.id, expiresAt := now₁ + ttl, lastUsed := now₁ },
        ?_, ?_, rfl, trivial⟩
      · rw [List.find?_map, hcompHit, hc₁]
        simp [hgc]
      · rw [List.find?_map, hcompKey, hc₁]
        simp [hgc]
    · rw [if_neg hck]
      have hallk : ∀ r ∈ db.planCache,
          r.cacheKey ≠ generateCacheKey p.taskSignature := by
        intro r hr hkk
        exact hck (List.any_eq_true.mpr ⟨r, hr, by simp [hkk]⟩)
      have hfnoneHit : db.planCache.find?
          (fun r => decide (r.cacheKey = generateCacheKey p.taskSignature) &&
            decide (now₂ < r.expiresAt)) = none := by
        rw [List.find?_eq_none]
        intro r hr
        simp [hallk r hr]
      have hfnoneKey : db.planCache.find?
          (fun r => decide (r.cacheKey = generateCacheKey p.taskSignature)) = none := by
        rw [List.find?_eq_none]
        intro r hr
        simp [hallk r hr]
      refine ⟨⟨generateCacheKey p.taskSignature, row.id, 0, now₁, now₁ + ttl⟩,
        ?_, ?_, rfl, trivial⟩
      · rw [List.find?_append, hfnoneHit]
        simp [List.find?, hexp]
      · rw [List.find?_append, hfnoneKey]
        simp [List.find?]
  have hjoin : ((if db.executionPlans.any
      (fun r => r.taskSignature = p.taskSignature) then
        db.executionPlans.map (fun r =>
          if r.taskSignature = p.taskSignature then
            { r with plan := p, version := r.version + 1 }
          else r)
      else db.executionPlans ++ [⟨p.id, p.taskSignature, p, 1, true⟩]).find?
        (fun pr => pr.id = centry.planId)) = some row := by
    rw [hcPid]
    exact hrowId
  have hmain := getCachedPlan_hit ⟨_, _⟩ p.taskSignature now₂ row centry
    hfindHit hfindKey hjoin
  rw [hrowPlan] at hmain
  refine ⟨hmain.1, ?_⟩
  exact hmain.2.1.trans (congrArg (fun n => n + 1) hmain.2.2.symm)

/-- The database state after caching planA into an empty database with
TTL 1000 at time 0. -/
def dbAfterPut : Db :=
  ⟨[⟨"plan-a", "sig-1", planA, 1, true⟩],
   [⟨generateCacheKey "sig-1", "plan-a", 0, 0, 1000⟩]⟩

/-- Witness for the amended C3 round trip: an empty, well-formed
database, planA with a fresh id, TTL 1000, put at time 0 and read back at
time 500. -/
theorem C3_cache_roundtrip_witness :
    DbWf ⟨[], []⟩ ∧ FreshId ⟨[], []⟩ planA ∧ ((500 : Int) < 0 + 1000) ∧
    cachePlan ⟨[], []⟩ planA (some 1000) 0 = some ("plan-a", dbAfterPut) ∧
    ((getCachedPlan dbAfterPut planA.taskSignature 500).1 = some planA ∧
      hitCountAt (getCachedPlan dbAfterPut planA.taskSignature 500).2 planA.taskSignature =
        hitCountAt dbAfterPut planA.taskSignature + 1) := by
  have hwf : DbWf ⟨[], []⟩ := by
    refine ⟨by simp, by simp, by simp⟩
  have hfresh : FreshId ⟨[], []⟩ planA := fun r hr => absurd hr (List.not_mem_nil r)
  have hlt : (500 : Int) < 0 + 1000 := by decide
  have hcp : cachePlan ⟨[], []⟩ planA (some 1000) 0 = some ("plan-a", dbAfterPut) := by rfl
  exact ⟨hwf, hfresh, hlt, hcp,
    C3_cache_roundtrip_amended.2 ⟨[], []⟩ planA 1000 0 500 hwf hfresh hlt "plan-a" dbAfterPut hcp⟩

end Birdwatcher
